import Mathlib

/-!
Verification of the almacena-ledger KPI data pipeline.

This file gives a shallow embedding of the data-transformation and
currency-conversion core of the repository and proves (or refutes) the
specification claims about it:

* `scripts/fetch_from_sheets.py`: `convert_to_eur` (USD→EUR conversion of a
  wide table using an embedded exchange-rate row).
* `scripts/convert_kpis_wide_to_long.py`: `clean_currency_value`,
  `standardize_metric_name`, `convert_wide_to_long`, `convert_usd_to_eur`,
  `create_pipeline_compatible_format`.
* `data_pipeline.py`: `KPIPipeline.clean_data` (period parsing / row
  filtering) and `KPIPipeline.calculate_metrics` (derived KPIs).

Numeric cells are modelled as `Option ℚ`: `none` stands for pandas
missing values (NaN / NA), `some q` for a finite numeric value.  Python
floats are idealised as exact rationals.  Where numpy can produce
infinities (true division by zero) the embedding uses the dedicated type
`FloatVal` which has explicit `posInf`/`negInf`/`nan` values.
-/

namespace Almacena

/-- Numeric view of one spreadsheet cell: `none` models NaN/`<NA>`. -/
abbrev Cell := Option ℚ

/-! ### Character/string helpers

Lean's built-in `String.toLower`, `String.trim` and string comparison do not
reduce well inside the kernel, so the embedding works on `List Char`
directly. -/

/-- `leadsWith needle hay`: `hay` starts with `needle`. -/
def leadsWith : List Char → List Char → Bool
  | [], _ => true
  | _ :: _, [] => false
  | a :: as, b :: bs => a == b && leadsWith as bs

/-- `hasSub needle hay`: `needle` occurs as a contiguous substring of `hay`. -/
def hasSub (needle : List Char) : List Char → Bool
  | [] => leadsWith needle []
  | c :: cs => leadsWith needle (c :: cs) || hasSub needle cs

/-- Lower-cased character list of a string (models Python `str.lower()`). -/
def lowerStr (s : String) : List Char := s.data.map Char.toLower

/-- ASCII whitespace characters (the ASCII fragment of Python's `str.strip()`
and of the regex class `\s`). -/
def spaceChars : List Char := [' ', '\t', '\n', '\r', '\x0b', '\x0c']

/-- Models Python `str.strip()` (ASCII whitespace). -/
def pyStrip (s : String) : String :=
  String.mk (((s.data.dropWhile (spaceChars.contains ·)).reverse.dropWhile
    (spaceChars.contains ·)).reverse)

/-! ### Python `float()` on already-stripped text

`pyFloat` models CPython `float(str)` restricted to finite decimal literals:
optional sign, decimal digits with at most one point, optional `e`/`E`
exponent.  The exotic inputs `"inf"`/`"infinity"`, `"nan"` and underscore
separators (`"1_0"`) are outside the modelled grammar; `float("nan")` in the
source produces NaN, which every caller treats as a missing value, so mapping
it to `none` is faithful at the granularity of this model. -/

/-- Numeric value of a digit list (most significant first). -/
def digitsToNat (cs : List Char) : Nat :=
  cs.foldl (fun n c => 10 * n + (c.toNat - '0'.toNat)) 0

/-- Unsigned decimal: `d+`, `d+.d*` or `d*.d+`. -/
def parseUnsignedDec (cs : List Char) : Option ℚ :=
  match cs.splitOn '.' with
  | [ds] =>
      if !ds.isEmpty && ds.all Char.isDigit then some (digitsToNat ds : ℚ) else none
  | [ip, fp] =>
      if (!ip.isEmpty || !fp.isEmpty) && ip.all Char.isDigit && fp.all Char.isDigit then
        some ((digitsToNat ip : ℚ) + (digitsToNat fp : ℚ) / (10 : ℚ) ^ fp.length)
      else none
  | _ => none

/-- Signed decimal mantissa. -/
def parseSignedDec (cs : List Char) : Option ℚ :=
  match cs with
  | '+' :: rest => parseUnsignedDec rest
  | '-' :: rest => (parseUnsignedDec rest).map Neg.neg
  | _ => parseUnsignedDec cs

/-- Signed exponent: optional sign followed by at least one digit. -/
def parseExpPart (cs : List Char) : Option Int :=
  match cs with
  | '+' :: rest =>
      if !rest.isEmpty && rest.all Char.isDigit then some (digitsToNat rest : Int) else none
  | '-' :: rest =>
      if !rest.isEmpty && rest.all Char.isDigit then some (-(digitsToNat rest : Int)) else none
  | _ => if !cs.isEmpty && cs.all Char.isDigit then some (digitsToNat cs : Int) else none

/-- CPython `float(str)` on finite decimal literals (see section comment). -/
def pyFloat (cs : List Char) : Option ℚ :=
  match (cs.map Char.toLower).splitOn 'e' with
  | [m] => parseSignedDec m
  | [m, ex] =>
      match parseSignedDec m, parseExpPart ex with
      | some q, some e => some (q * (10 : ℚ) ^ e)
      | _, _ => none
  | _ => none

/-! ### `clean_currency_value` (scripts/convert_kpis_wide_to_long.py, lines 14–40) -/

/-- Characters removed by `re.sub(r'[$,\s]', '', value_str)` (ASCII fragment). -/
def currencyStripChars : List Char := '$' :: ',' :: spaceChars

/-- The paren-negation step of `clean_currency_value`: a value wrapped in
parentheses becomes negative (source lines 26–27). -/
def parenNegate (cs : List Char) : List Char :=
  if cs.head? = some '(' && cs.getLast? = some ')' then
    '-' :: (cs.drop 1).dropLast
  else cs

/-- `clean_currency_value(value)` (source lines 14–40): `None`/NaN or the empty
string give NaN; currency symbols, commas and whitespace are removed; a
parenthesised value is negated; a trailing `%` divides by 100; any remaining
parse failure gives NaN.  NaN is modelled as `none`. -/
def clean_currency_value (value : Option String) : Option ℚ :=
  match value with
  | none => none
  | some s =>
      if s = "" then none
      else
        let v1 := s.data.filter (fun c => !(currencyStripChars.contains c))
        let v2 := parenNegate v1
        if v2.getLast? = some '%' then (pyFloat v2.dropLast).map (· / 100)
        else pyFloat v2

/-! ### `standardize_metric_name` (scripts/convert_kpis_wide_to_long.py, lines 42–67) -/

/-- The fixed `metric_mapping` table (source lines 44–65). -/
def metric_mapping : List (String × String) :=
  [("GMV", "gmv"),
   ("Funded Amount", "funded_amount"),
   ("Avg Days Outstanding", "avg_days_outstanding"),
   ("# Invoices", "num_invoices"),
   ("# Boxes", "num_boxes"),
   ("% GMV Insured", "gmv_insured_pct"),
   ("Arrangement Fees", "arrangement_fees"),
   ("Logistic Fees", "logistic_fees"),
   ("Logistic Costs", "logistic_costs"),
   ("Cargo Insurance Fees", "cargo_insurance_fees"),
   ("Cargo Insurance Costs", "cargo_insurance_costs"),
   ("Accrued Interests", "accrued_interests"),
   ("Cost of Funds (Accrued)", "cost_of_funds_accrued"),
   ("Docs Management Fees", "docs_management_fees"),
   ("Costs of Docs Delivery", "costs_docs_delivery"),
   ("Handling & Warehouse Destination Fees", "handling_warehouse_fees"),
   ("Handling & Warehouse Destination Costs", "handling_warehouse_costs"),
   ("Avg Portfolio Outstanding", "avg_portfolio_outstanding"),
   ("Cash Drag", "cash_drag"),
   ("USD to EUR historical Rates (EoM)", "usd_eur_rate_eom")]

/-- Fallback for unmapped labels: lowercase, spaces to underscores, `#` to
`num` (source line 67). -/
def fallbackKey (s : String) : String :=
  String.mk (s.data.flatMap fun c =>
    if c = ' ' then ['_'] else if c = '#' then ['n', 'u', 'm'] else [c.toLower])

/-- `standardize_metric_name(metric_name)` (source lines 42–67). -/
def standardize_metric_name (name : String) : String :=
  match metric_mapping.find? (fun p => p.1 = name) with
  | some p => p.2
  | none => fallbackKey name

/-! ### Wide tables and `convert_to_eur` (scripts/fetch_from_sheets.py, lines 183–232)

A wide table as handled by `fetch_from_sheets.py`: the `month` column holds
the metric label of each row, the remaining columns are period headers.  Cells
are modelled by their numeric content under `pd.to_numeric(·, errors='coerce')`:
`none` for NaN/unparseable, `some q` for a numeric value. -/

structure Row where
  label : String
  vals : List Cell
deriving DecidableEq

structure Frame where
  periods : List String
  rows : List Row
deriving DecidableEq

/-- A frame is well-formed when every row has one cell per period column. -/
def Frame.WF (t : Frame) : Prop :=
  ∀ r ∈ t.rows, r.vals.length = t.periods.length

/-- Rate-row keyword test (source line 193): the lower-cased label contains
`"exch"`, `"rate"`, `"eur"` or `"usd"`. -/
def hasRateKeyword (label : String) : Bool :=
  hasSub "exch".data (lowerStr label) || hasSub "rate".data (lowerStr label) ||
  hasSub "eur".data (lowerStr label) || hasSub "usd".data (lowerStr label)

/-- The exchange-rate row: first row, in table order, whose label matches a
keyword (source lines 190–196). -/
def findRateRow (rows : List Row) : Option Row :=
  rows.find? (fun r => hasRateKeyword r.label)

/-- The `currency_metrics` allow-list of `convert_to_eur`
(source lines 203–209). -/
def currency_metrics : List String :=
  ["GMV", "Funded Amount", "Arrangement Fees", "Logistic Fees",
   "Logistic Costs", "Cargo Insurance Fees", "Cargo Insurance Costs",
   "Accrued Interests", "Cost of Funds (Accrued)", "Docs Management Fees",
   "Costs of Docs Delivery", "Warehouse Destination Fees",
   "Warehouse Destination Costs", "Avg Portfolio Outstanding"]

/-- One cell of the conversion loop (source lines 219–225): the cell is
overwritten with `amount * rate` exactly when both the amount and the rate are
numeric and the rate is non-zero; otherwise the cell keeps its value. -/
def convertCell (a rt : Cell) : Cell :=
  match a, rt with
  | some av, some rv => if rv ≠ 0 then some (av * rv) else some av
  | a, _ => a

/-- Conversion of one row (source lines 215–229): rows whose label is in
`currency_metrics` have each cell combined with the rate row's cell for the
same period; all other rows are untouched. -/
def convertRow (rate : Row) (r : Row) : Row :=
  if r.label ∈ currency_metrics then
    { r with vals := List.zipWith convertCell r.vals rate.vals }
  else r

/-- `convert_to_eur(df)` (source lines 183–232).  The function first copies its
argument (line 187; the heap model below makes the copy explicit), selects the
exchange-rate row, and if none exists returns the input unchanged.  The values
written come from the row snapshots taken by `iterrows`, which equal the
original values because each cell is written at most once and the rate row is
snapshotted before any write. -/
def convert_to_eur (t : Frame) : Frame :=
  match findRateRow t.rows with
  | none => t
  | some rate => { t with rows := t.rows.map (convertRow rate) }

/-! ### Calendar dates and strptime-style parsing (data_pipeline.py, lines 79–100)

`KPIPipeline.clean_data` converts the `month` column to datetimes by trying a
chain of formats, each via `pd.to_datetime(·, format=..., errors='coerce')`,
moving to the next format only when **every** value failed the previous one.
The parsers below model CPython/pandas `strptime` for the formats the source
uses: `%m/%d/%Y`, `%B %Y`, `%m/%d/%y`, and a best-effort general parse. -/

structure Date where
  year : Nat
  month : Nat
  day : Nat
deriving DecidableEq

def isLeap (y : Nat) : Bool := (y % 4 = 0 && y % 100 ≠ 0) || y % 400 = 0

def daysInMonth (y m : Nat) : Nat :=
  if m = 2 then (if isLeap y then 29 else 28)
  else if m = 4 ∨ m = 6 ∨ m = 9 ∨ m = 11 then 30 else 31

/-- A field of at most `maxLen` digits. -/
def parseNatField (cs : List Char) (maxLen : Nat) : Option Nat :=
  if !cs.isEmpty && cs.length ≤ maxLen && cs.all Char.isDigit then
    some (digitsToNat cs)
  else none

/-- `strptime` with format `%m/%d/%Y`: 1–2 digit month and day, exactly
4-digit year, with calendar validity of the day. -/
def parse_mdYYYY (s : String) : Option Date := do
  match s.data.splitOn '/' with
  | [ms, ds, ys] =>
      let m ← parseNatField ms 2
      let d ← parseNatField ds 2
      let y ← if ys.length = 4 then parseNatField ys 4 else none
      if 1 ≤ m ∧ m ≤ 12 ∧ 1 ≤ d ∧ d ≤ daysInMonth y m then some ⟨y, m, d⟩ else none
  | _ => none

/-- `strptime` with format `%m/%d/%y`: exactly two-digit year, resolved with
the CPython pivot — `00`–`68` map to `2000`–`2068`, `69`–`99` map to
`1969`–`1999`. -/
def parse_mdyy (s : String) : Option Date := do
  match s.data.splitOn '/' with
  | [ms, ds, ys] =>
      let m ← parseNatField ms 2
      let d ← parseNatField ds 2
      let yy ← if ys.length = 2 then parseNatField ys 2 else none
      let y := if yy ≤ 68 then 2000 + yy else 1900 + yy
      if 1 ≤ m ∧ m ≤ 12 ∧ 1 ≤ d ∧ d ≤ daysInMonth y m then some ⟨y, m, d⟩ else none
  | _ => none

def monthNames : List String :=
  ["January", "February", "March", "April", "May", "June", "July",
   "August", "September", "October", "November", "December"]

/-- Case-insensitive equality of character lists. -/
def lowerEq (a b : List Char) : Bool :=
  a.map Char.toLower == b.map Char.toLower

/-- 1-based month number of a (case-insensitive) full English month name. -/
def monthIdx (cs : List Char) : Option Nat :=
  (monthNames.findIdx? (fun nm => lowerEq nm.data cs)).map (· + 1)

/-- `strptime` with format `%B %Y`: full month name, one space, 4-digit year;
the day defaults to 1. -/
def parse_BY (s : String) : Option Date := do
  match s.data.splitOn ' ' with
  | [nm, ys] =>
      let m ← monthIdx nm
      let y ← if ys.length = 4 then parseNatField ys 4 else none
      some ⟨y, m, 1⟩
  | _ => none

/-- ISO `YYYY-MM-DD`. -/
def parse_iso (s : String) : Option Date := do
  match s.data.splitOn '-' with
  | [ys, ms, ds] =>
      let y ← if ys.length = 4 then parseNatField ys 4 else none
      let m ← parseNatField ms 2
      let d ← parseNatField ds 2
      if 1 ≤ m ∧ m ≤ 12 ∧ 1 ≤ d ∧ d ≤ daysInMonth y m then some ⟨y, m, d⟩ else none
  | _ => none

/-- Best-effort model of `pd.to_datetime(·, errors='coerce')` without an
explicit format (dateutil): it accepts the date shapes the earlier strategies
accept plus ISO dates, and yields `none` (NaT) on text with no recognisable
date content. -/
def parse_general (s : String) : Option Date :=
  parse_mdYYYY s <|> parse_mdyy s <|> parse_iso s <|> parse_BY s

/-- Lift a parser to an optional (possibly NaN) month value. -/
def liftParse (f : String → Option Date) (m : Option String) : Option Date :=
  m.bind f

/-- The format-fallback chain of `clean_data` (source lines 80–97): try
`%m/%d/%Y`; if every value failed, try month names with `' 2025'` appended;
if every value failed, try `%m/%d/%y`; if every value failed, general
parsing.  A value that fails the chosen strategy stays NaT even when a later
strategy could parse it. -/
def monthChain (months : List (Option String)) : List (Option Date) :=
  let t1 := months.map (liftParse parse_mdYYYY)
  if t1.all (·.isNone) then
    let t2 := months.map (liftParse (fun s => parse_BY (s ++ " 2025")))
    if t2.all (·.isNone) then
      let t3 := months.map (liftParse parse_mdyy)
      if t3.all (·.isNone) then months.map (liftParse parse_general) else t3
    else t2
  else t1

/-! ### `KPIPipeline.clean_data` (data_pipeline.py, lines 56–119)

Rows are modelled with the `month` column plus the core metric columns of the
source's documented CSV format (`month,GMV,Funded Amount,Avg Days
Outstanding,# Invoices,# Boxes`); metric cells carry their numeric content
under `pd.to_numeric(·, errors='coerce')`.  Column-name standardisation is
reflected in the lowercase field names. -/

structure PRow where
  month : Option String
  gmv : Cell
  funded_amount : Cell
  avg_days_outstanding : Cell
  num_invoices : Cell
  num_boxes : Cell
deriving DecidableEq

/-- `dropna(how='all')` test: every column of the row is missing. -/
def PRow.isAllNa (r : PRow) : Bool :=
  r.month.isNone && r.gmv.isNone && r.funded_amount.isNone &&
  r.avg_days_outstanding.isNone && r.num_invoices.isNone && r.num_boxes.isNone

/-- A cleaned row: the month has been parsed to a date. -/
structure CRow where
  month : Date
  gmv : Cell
  funded_amount : Cell
  avg_days_outstanding : Cell
  num_invoices : Cell
  num_boxes : Cell
deriving DecidableEq

/-- `KPIPipeline.clean_data` (source lines 56–119): drop all-empty rows,
parse the month column through `monthChain`, and keep only rows with a valid
month (line 116: `df = df[df['month'].notna()]`). -/
def clean_data (rows : List PRow) : List CRow :=
  let kept := rows.filter (fun r => !r.isAllNa)
  let dates := monthChain (kept.map (·.month))
  (kept.zip dates).filterMap fun rd =>
    rd.2.map fun d =>
      ⟨d, rd.1.gmv, rd.1.funded_amount, rd.1.avg_days_outstanding,
       rd.1.num_invoices, rd.1.num_boxes⟩

/-! ### `KPIPipeline.calculate_metrics` (data_pipeline.py, lines 121–150)

Numpy float semantics for elementwise division: a missing operand propagates
NaN, a zero divisor with a non-zero dividend gives a signed infinity, and
`0/0` gives NaN.  `FloatVal` makes these outcomes explicit. -/

inductive FloatVal
  | nan
  | fin (q : ℚ)
  | posInf
  | negInf
deriving DecidableEq

/-- Elementwise pandas/numpy true division of two cells. -/
def pdDiv (a b : Cell) : FloatVal :=
  match a, b with
  | some av, some bv =>
      if bv ≠ 0 then .fin (av / bv)
      else if 0 < av then .posInf
      else if av < 0 then .negInf
      else .nan
  | _, _ => .nan

/-- Round-half-to-even on rationals (numpy's rounding mode). -/
def roundHalfEven (x : ℚ) : ℤ :=
  let f := ⌊x⌋
  let r := x - (f : ℚ)
  if r < 1 / 2 then f
  else if 1 / 2 < r then f + 1
  else if f % 2 = 0 then f else f + 1

/-- `Series.round(2)` on a finite value. -/
def round2 (x : ℚ) : ℚ := (roundHalfEven (x * 100) : ℚ) / 100

/-- `Series.round(2)` on a float: infinities and NaN round to themselves. -/
def FloatVal.round2 : FloatVal → FloatVal
  | .fin q => .fin (Almacena.round2 q)
  | v => v

/-- An enriched row.  Of the derived columns of `calculate_metrics`, the ones
the specification claims mention are embedded: `boxes_per_invoice` (line 124),
`days_performance` (lines 139–142) and the calendar columns (lines 145–147).
The growth/rolling/cumulative columns (lines 127–136) are not needed by any
claim and are not modelled. -/
structure ERow where
  base : CRow
  boxes_per_invoice : FloatVal
  days_performance : Option String
  quarter : Nat
  year : Nat
  month_name : String
deriving DecidableEq

/-- `KPIPipeline.calculate_metrics` (source lines 121–150), restricted to the
modelled derived columns.  `boxes_per_invoice` is
`(df['num_boxes'] / df['num_invoices']).round(2)` (line 124). -/
def calculate_metrics (rows : List CRow) : List ERow :=
  rows.map fun r =>
    { base := r
      boxes_per_invoice := (pdDiv r.num_boxes r.num_invoices).round2
      days_performance := r.avg_days_outstanding.map (fun x =>
        if x ≤ 20 then "Excellent" else if x ≤ 25 then "Good"
        else "Needs Improvement")
      quarter := (r.month.month + 2) / 3
      year := r.month.year
      month_name := monthNames.getD (r.month.month - 1) "" }

/-! ### Long records and `convert_wide_to_long`
(scripts/convert_kpis_wide_to_long.py, lines 69–158)

The wide input of `convert_wide_to_long` is a raw CSV: the first column holds
metric labels, the remaining columns are month headers, and every cell is raw
text (`none` models an empty cell read as NaN). -/

structure LongRec where
  month : String
  metric : String
  value : ℚ
  original_metric : String
deriving DecidableEq

structure WideIn where
  periods : List String
  rows : List (String × List (Option String))
deriving DecidableEq

/-- Column `j` has at least one non-NaN cell (`df.notna().any()`, computed on
the frame before row dropping — the name `df` on source line 90 is still bound
to the original frame when `df.notna()` is evaluated). -/
def colHasData (rows : List (String × List (Option String))) (j : Nat) : Bool :=
  rows.any fun r => (r.2.getD j none).isSome

/-- The records appended by the nested loop of `convert_wide_to_long`
(source lines 95–120): for every kept row with a non-blank label and every
kept column, skip NaN/blank cells, clean the value, and keep it only when
cleaning produced a number. -/
def keptRows (w : WideIn) : List (String × List (Option String)) :=
  w.rows.filter fun r => !(r.2.all (·.isNone))

def keptCols (w : WideIn) : List Nat :=
  (List.range w.periods.length).filter (colHasData w.rows)

/-- The long record built from row `r`, column `j` (source lines 103–120):
skip NaN/blank cells and cells whose cleaned value is NaN. -/
def cellRec (w : WideIn) (r : String × List (Option String)) (j : Nat) :
    Option LongRec :=
  match r.2.getD j none with
  | none => none
  | some v =>
      if pyStrip v = "" then none
      else (clean_currency_value (some v)).map fun q =>
        ⟨w.periods.getD j "", standardize_metric_name (pyStrip r.1), q, r.1⟩

/-- The records one kept row contributes: none when its label is blank. -/
def rowRecs (w : WideIn) (r : String × List (Option String)) : List LongRec :=
  if pyStrip r.1 = "" then [] else (keptCols w).filterMap (cellRec w r)

def buildRecs (w : WideIn) : List LongRec :=
  (keptRows w).flatMap (rowRecs w)

/-- A non-blank metric label occurring more than once among the kept rows:
`df.loc[metric_name, month_col]` then returns a Series and
`pd.isna(value)` raises (ambiguous truth value), so the conversion fails. -/
def dupLabels (w : WideIn) : Bool :=
  (keptRows w).any fun r =>
    pyStrip r.1 ≠ "" && (keptRows w).countP (fun s => s.1 = r.1) ≥ 2

/-- Lexicographic order on character lists. -/
def charListLe : List Char → List Char → Bool
  | [], _ => true
  | _ :: _, [] => false
  | a :: as, b :: bs => if a = b then charListLe as bs else decide (a < b)

def strLeB (a b : String) : Bool := charListLe a.data b.data

def dateLeB (a b : Date) : Bool :=
  if a.year ≠ b.year then decide (a.year < b.year)
  else if a.month ≠ b.month then decide (a.month < b.month)
  else decide (a.day ≤ b.day)

/-- Sort key when every month parsed as `%m/%d/%Y`: chronological, then by
metric. -/
def recLeDate (a b : LongRec) : Bool :=
  match parse_mdYYYY a.month, parse_mdYYYY b.month with
  | some da, some db => if da = db then strLeB a.metric b.metric else dateLeB da db
  | _, _ => true

/-- Fallback sort key: by raw month string, then by metric. -/
def recLeStr (a b : LongRec) : Bool :=
  if a.month = b.month then strLeB a.metric b.metric else strLeB a.month b.month

/-- The final sort of `convert_wide_to_long` (source lines 128–148):
chronological by parsed month then metric when the months parse as dates,
otherwise by raw month string then metric.  Only the relative order of rows
depends on this; every property proved below is order-insensitive, so the
intermediate month-name strategies of lines 135–139 (which can only produce a
different order, not different records) are not distinguished. -/
def sortLong (recs : List LongRec) : List LongRec :=
  if recs.all fun r => (parse_mdYYYY r.month).isSome then
    List.insertionSort (fun a b => recLeDate a b = true) recs
  else
    List.insertionSort (fun a b => recLeStr a b = true) recs

/-- `convert_wide_to_long` (source lines 69–158): `none` models the two error
modes — the ambiguous-label crash and the `ValueError` raised when no valid
record was produced (line 126). -/
def convert_wide_to_long (w : WideIn) : Option (List LongRec) :=
  if dupLabels w then none
  else
    let recs := buildRecs w
    if recs.isEmpty then none else some (sortLong recs)

/-! ### `create_pipeline_compatible_format`
(scripts/convert_kpis_wide_to_long.py, lines 160–239)

The pivoted frame has months as the row index and metrics as columns.  Cells
are stored sparsely as `(month, metric, value)` entries; a pair without an
entry is NaN.  The order of the `months`/`metrics` index lists is not used by
any property below — only membership and cell lookup are. -/

structure PFrame where
  months : List String
  metrics : List String
  cells : List (String × String × ℚ)
deriving DecidableEq

/-- Cell lookup in a pivoted frame (NaN-as-`none`). -/
def PFrame.cellAt (t : PFrame) (metric month : String) : Option ℚ :=
  (t.cells.find? fun e => e.1 = month && e.2.1 = metric).map (·.2.2)

/-- Two records share a `(month, metric)` key: `DataFrame.pivot` then raises
`ValueError: Index contains duplicate entries, cannot reshape`. -/
def hasDupKey (recs : List LongRec) : Bool :=
  recs.any fun r =>
    recs.countP (fun s => s.month = r.month && s.metric = r.metric) ≥ 2

/-- `df_long.pivot(index='month', columns='metric', values='value')`
(source line 209): fails on duplicate keys, otherwise produces the sparse
pivoted frame. -/
def pivot (recs : List LongRec) : Option PFrame :=
  if hasDupKey recs then none
  else some
    { months := (recs.map (·.month)).dedup
      metrics := (recs.map (·.metric)).dedup
      cells := recs.map fun r => (r.month, r.metric, r.value) }

/-- The `usd_columns` allow-list of `convert_usd_to_eur`
(source lines 172–177). -/
def usd_columns : List String :=
  ["gmv", "funded_amount", "accrued_interests", "arrangement_fees",
   "avg_portfolio_outstanding", "cargo_insurance_costs", "cargo_insurance_fees",
   "cost_of_funds_accrued", "costs_docs_delivery", "docs_management_fees",
   "handling_warehouse_costs", "handling_warehouse_fees", "logistic_costs",
   "logistic_fees"]

/-- `convert_usd_to_eur(df_pivot)` (source lines 160–193): when the
`usd_eur_rate_eom` column exists, every `usd_columns` cell is multiplied by
that month's rate (NaN rate propagates NaN); otherwise a no-op. -/
def convert_usd_to_eur (t : PFrame) : PFrame :=
  if "usd_eur_rate_eom" ∈ t.metrics then
    { t with cells := t.cells.filterMap fun e =>
        if e.2.1 ∈ usd_columns then
          match (t.cells.find? fun x =>
              x.1 = e.1 && x.2.1 = "usd_eur_rate_eom").map (·.2.2) with
          | some r => some (e.1, e.2.1, e.2.2 * r)
          | none => none
        else some e }
  else t

/-- `required_columns` of `create_pipeline_compatible_format`
(source line 215). -/
def required_columns : List String :=
  ["month", "gmv", "funded_amount", "avg_days_outstanding", "num_invoices",
   "num_boxes"]

/-- `create_pipeline_compatible_format(df_long, convert_currency)`
(source lines 195–239): pivot (which may fail), append the missing required
metric columns as all-NaN columns, optionally convert USD columns to EUR, and
reorder columns with the required ones first.  `month` is the row index in
this model, so it is filtered out of the metric-column bookkeeping. -/
def create_pipeline_compatible_format (recs : List LongRec)
    (convert_currency : Bool) : Option PFrame :=
  (pivot recs).map fun t0 =>
    let t1 := { t0 with
      metrics := t0.metrics ++
        required_columns.filter fun c => c ≠ "month" && !(t0.metrics.contains c) }
    let t2 := if convert_currency then convert_usd_to_eur t1 else t1
    { t2 with
      metrics :=
        (required_columns.filter fun c => c ≠ "month" && t2.metrics.contains c) ++
        t2.metrics.filter fun c => !(required_columns.contains c) }

/-- The wide-to-long-to-wide round trip as the repository composes it:
`create_pipeline_compatible_format(convert_wide_to_long(input))` with the
default `convert_currency=True`. -/
def roundtrip (w : WideIn) : Option PFrame :=
  (convert_wide_to_long w).bind fun recs =>
    create_pipeline_compatible_format recs true

/-- Numeric content of one cell of the raw wide input, for comparison with the
round-trip output: the cell of the row labelled `label` in the column
`period`, passed through `clean_currency_value`. -/
def WideIn.numAt (w : WideIn) (label period : String) : Option ℚ :=
  match w.rows.find? (fun r => r.1 = label), w.periods.findIdx? (· = period) with
  | some r, some j => (r.2.getD j none).bind fun v => clean_currency_value (some v)
  | _, _ => none

/-! ### A heap model for the frame property of `convert_to_eur`

`convert_to_eur` receives a reference to the caller's dataframe, copies it
(source line 187), and performs all its `df.at[idx, col]` writes on the copy.
The heap is a list of frames; an address is an index; the call allocates the
copy at a fresh address and every write targets that address.  The written
values are computed from the pre-write snapshot (`iterrows` yields copies; the
rate row's label never belongs to `currency_metrics`, so the rate row is never
overwritten). -/

/-- One `df.at[idx, col] = v` write. -/
def frameWrite (t : Frame) (i j : Nat) (v : Cell) : Frame :=
  { t with rows := t.rows.modify (fun r => { r with vals := r.vals.set j v }) i }

/-- The write the loop body issues for row `i`, column `j` (source lines
219–225): present exactly when both the amount and the rate are numeric and
the rate is non-zero. -/
def cellWrite (rate r : Row) (i j : Nat) : Option (Nat × Nat × ℚ) :=
  match r.vals[j]?, rate.vals[j]? with
  | some (some a), some (some rv) =>
      if rv ≠ 0 then some (i, j, a * rv) else none
  | _, _ => none

/-- The writes issued while visiting row `i` (source lines 215–218): none
unless the row's label is allow-listed. -/
def rowWrites (t : Frame) (rate : Row) (i : Nat) : List (Nat × Nat × ℚ) :=
  match t.rows[i]? with
  | none => []
  | some r =>
      if r.label ∈ currency_metrics then
        (List.range t.periods.length).filterMap (cellWrite rate r i)
      else []

/-- The write list of the conversion loop (source lines 215–229), computed
from the original frame and the snapshotted rate row. -/
def convertWrites (t : Frame) (rate : Row) : List (Nat × Nat × ℚ) :=
  (List.range t.rows.length).flatMap (rowWrites t rate)

/-- Apply a write list to a frame in order. -/
def applyWrites (t : Frame) (ws : List (Nat × Nat × ℚ)) : Frame :=
  ws.foldl (fun acc w => frameWrite acc w.1 w.2.1 (some w.2.2)) t

/-- `convert_to_eur` as a heap program: copy the argument to a fresh address,
then run the write loop against that address; the result value is the fresh
address. -/
def convert_to_eur_run (h : List Frame) (a : Nat) : List Frame × Nat :=
  let t := h.getD a ⟨[], []⟩
  let b := h.length
  let h1 := h ++ [t]
  match findRateRow t.rows with
  | none => (h1, b)
  | some rate =>
      ((convertWrites t rate).foldl
        (fun hh w => hh.set b (frameWrite (hh.getD b ⟨[], []⟩) w.1 w.2.1 (some w.2.2)))
        h1, b)

/-! ### Cell accessors and concrete instances used by the claim theorems -/

/-- Cell `j` of row `i` of a wide frame (missing when out of range). -/
def Frame.cellVal (t : Frame) (i j : Nat) : Cell :=
  (t.rows.getD i ⟨"", []⟩).vals.getD j none

/-- The exchange-rate row of the specification's worked example:
`{Jan-25: 0.92, Feb-25: 0.93}`. -/
def exRateRow : Row := ⟨"USD to EUR historical Rates (EoM)", [some (92/100), some (93/100)]⟩

/-- The worked example: GMV row `{Jan-25: 1000000, Feb-25: 1100000}` plus the
rate row. -/
def exC1 : Frame := ⟨["Jan-25", "Feb-25"], [⟨"GMV", [some 1000000, some 1100000]⟩, exRateRow]⟩

/-- A table whose rate row has an empty (missing) Jan-25 value while the GMV
raw value is present. -/
def exC2 : Frame := ⟨["Jan-25", "Feb-25"],
  [⟨"GMV", [some 1000000, some 1100000]⟩,
   ⟨"USD to EUR historical Rates (EoM)", [none, some (93/100)]⟩]⟩

/-- Cell `j` of row `i` of a frame through `getElem?` (outer `none` when out
of range). -/
def Frame.cellQ (t : Frame) (i j : Nat) : Option Cell :=
  (t.rows[i]?).bind fun r => r.vals[j]?

/-- Fold step recording the value of the latest write to cell `(i, j)`. -/
def writeStep (i j : Nat) (acc : Option Cell) (w : Nat × Nat × ℚ) : Option Cell :=
  if w.1 = i ∧ w.2.1 = j then some (some w.2.2) else acc

/-- The value of the last write to cell `(i, j)` in a write list, if any. -/
def lastWrite (i j : Nat) (ws : List (Nat × Nat × ℚ)) : Option Cell :=
  ws.foldl (writeStep i j) none

/-- The exact two-digit rendering of `n < 100`, as matched by `%y`. -/
def twoDigitStr (n : Nat) : String :=
  String.mk [Char.ofNat ('0'.toNat + n / 10), Char.ofNat ('0'.toNat + n % 10)]

/-- A one-row pipeline table whose month parses under no strategy. -/
def exC7 : List PRow := [⟨some "garbage", some 5, none, none, none, none⟩]

/-- A cleaned base row with 91 boxes and 0 invoices. -/
def exC8Row : CRow := ⟨⟨2025, 1, 1⟩, some 1000000, some 900000, some 18, some 0, some 91⟩

def exC8 : List CRow := [exC8Row]

/-- Two long records sharing the `(month, metric)` key `("Jan-25", "gmv")`. -/
def exDup : List LongRec :=
  [⟨"Jan-25", "gmv", 100, "GMV"⟩, ⟨"Jan-25", "gmv", 200, "GMV"⟩]

/-- A wide input with a single `GMV` row, for the round-trip counterexample. -/
def exW3 : WideIn :=
  ⟨["1/1/2025", "2/1/2025"], [("GMV", [some "1000000", some "1100000"])]⟩

/-- The key on which `pivot` requires uniqueness. -/
def LongRec.key (r : LongRec) : String × String := (r.month, r.metric)

end Almacena

namespace Almacena

/-! ## Claim theorems -/

/-- Helper: when a rate row was found, conversion maps `convertRow` over the
rows and keeps the period list. -/
theorem convert_to_eur_rows_of_found {t : Frame} {rate : Row}
    (h : findRateRow t.rows = some rate) :
    convert_to_eur t = ⟨t.periods, t.rows.map (convertRow rate)⟩ := by
  simp [convert_to_eur, h]

/-- C4: the converter selects as the exchange-rate series the first row, in
table row order, whose label contains one of the keywords `exch`, `rate`,
`eur`, `usd` case-insensitively; when no row matches, `convert_to_eur`
returns its input unchanged (a no-op, not an error). -/
theorem convert_to_eur_rate_row_selection :
    (∀ t : Frame, findRateRow t.rows = none → convert_to_eur t = t) ∧
    (∀ (rows : List Row) (i : Nat) (r : Row),
      rows[i]? = some r → hasRateKeyword r.label = true →
      (∀ (j : Nat) (r' : Row), j < i → rows[j]? = some r' →
        hasRateKeyword r'.label = false) →
      findRateRow rows = some r) := by
  constructor
  · intro t h
    simp [convert_to_eur, h]
  · intro rows
    induction rows with
    | nil => intro i r h; simp at h
    | cons x xs ih =>
        intro i r hget hkw hfirst
        match i with
        | 0 =>
            simp at hget
            subst hget
            simp [findRateRow, List.find?_cons_of_pos, hkw]
        | i + 1 =>
            have hx : hasRateKeyword x.label = false := by
              exact hfirst 0 x (Nat.succ_pos i) (by simp)
            have : findRateRow xs = some r := by
              refine ih i r ?_ hkw ?_
              · simpa using hget
              · intro j r' hj hj'
                exact hfirst (j + 1) r' (Nat.succ_lt_succ hj) (by simpa using hj')
            simpa [findRateRow, List.find?_cons_of_neg, hx] using this

/-- Witness for C4 at a concrete table: the second row is the first
keyword-matching row, and on a table with no matching row the conversion is
the identity. -/
theorem convert_to_eur_rate_row_selection_witness :
    findRateRow [⟨"GMV", []⟩, ⟨"exch_rate", []⟩] = some ⟨"exch_rate", []⟩ ∧
    convert_to_eur ⟨["Jan-25"], [⟨"GMV", []⟩]⟩ = ⟨["Jan-25"], [⟨"GMV", []⟩]⟩ := by
  constructor
  · refine convert_to_eur_rate_row_selection.2 _ 1 _ rfl (by decide) ?_
    intro j r' hj hj'
    interval_cases j
    simp at hj'
    subst hj'
    decide
  · refine convert_to_eur_rate_row_selection.1 _ ?_
    decide

/-- Helper: a row reached by `getElem?` is a member. -/
theorem mem_of_getElem?_row {rows : List Row} {i : Nat} {r : Row}
    (h : rows[i]? = some r) : r ∈ rows := by
  exact List.getElem?_mem h

/-- C1: currency-conversion postcondition.  For every well-formed wide table
in which a rate row is found: the period columns and the row count are
preserved; every row whose label is not in the `currency_metrics` allow-list
is returned unchanged; and for every allow-listed row and every period where
both the raw value and the rate are present and the rate is non-zero, the
output cell is `rawValue * rate`.  Concretely, with rate row
`{Jan-25: 0.92, Feb-25: 0.93}` and GMV row `{Jan-25: 1000000, Feb-25:
1100000}`, conversion yields `{Jan-25: 920000, Feb-25: 1023000}`. -/
theorem convert_to_eur_postcondition :
    (∀ (t : Frame) (rate : Row), Frame.WF t → findRateRow t.rows = some rate →
      (convert_to_eur t).periods = t.periods ∧
      (convert_to_eur t).rows.length = t.rows.length ∧
      ∀ (i : Nat) (r : Row), t.rows[i]? = some r →
        (r.label ∉ currency_metrics → (convert_to_eur t).rows[i]? = some r) ∧
        (r.label ∈ currency_metrics →
          ∃ r', (convert_to_eur t).rows[i]? = some r' ∧
            r'.label = r.label ∧ r'.vals.length = r.vals.length ∧
            ∀ (j : Nat) (a rv : ℚ), r.vals[j]? = some (some a) →
              rate.vals[j]? = some (some rv) → rv ≠ 0 →
              r'.vals[j]? = some (some (a * rv)))) ∧
    Frame.cellVal (convert_to_eur exC1) 0 0 = some 920000 ∧
    Frame.cellVal (convert_to_eur exC1) 0 1 = some 1023000 := by
  refine ⟨?_, ?_, ?_⟩
  · intro t rate hWF hfind
    have hrate_mem : rate ∈ t.rows := List.mem_of_find?_eq_some hfind
    have hrate_len : rate.vals.length = t.periods.length := hWF rate hrate_mem
    rw [convert_to_eur_rows_of_found hfind]
    refine ⟨rfl, by simp, ?_⟩
    intro i r hget
    have hro : (t.rows.map (convertRow rate))[i]? = some (convertRow rate r) := by
      simp [List.getElem?_map, hget]
    have hr_len : r.vals.length = t.periods.length :=
      hWF r (mem_of_getElem?_row hget)
    constructor
    · intro hnot
      simpa [convertRow, hnot] using hro
    · intro hmem
      refine ⟨convertRow rate r, hro, ?_, ?_, ?_⟩
      · simp [convertRow, hmem]
      · simp [convertRow, hmem, hr_len, hrate_len]
      · intro j a rv ha hrv hne
        simp only [convertRow, hmem, if_pos]
        rw [List.getElem?_zipWith, ha, hrv]
        simp [convertCell, hne]
  · have h1 : hasRateKeyword "GMV" = false := by decide
    have h2 : hasRateKeyword "USD to EUR historical Rates (EoM)" = true := by decide
    have hf : findRateRow exC1.rows = some exRateRow := by
      simp [findRateRow, exC1, exRateRow, List.find?, h1, h2]
    rw [convert_to_eur_rows_of_found hf]
    simp [Frame.cellVal, exC1, exRateRow, convertRow, currency_metrics, convertCell]
    norm_num
  · have h1 : hasRateKeyword "GMV" = false := by decide
    have h2 : hasRateKeyword "USD to EUR historical Rates (EoM)" = true := by decide
    have hf : findRateRow exC1.rows = some exRateRow := by
      simp [findRateRow, exC1, exRateRow, List.find?, h1, h2]
    rw [convert_to_eur_rows_of_found hf]
    simp [Frame.cellVal, exC1, exRateRow, convertRow, currency_metrics, convertCell]
    norm_num

/-- Witness for C1: the general postcondition applied to the worked example,
with its hypotheses discharged concretely. -/
theorem convert_to_eur_postcondition_witness :
    Frame.WF exC1 ∧ findRateRow exC1.rows = some exRateRow ∧
    (convert_to_eur exC1).rows.length = exC1.rows.length := by
  have hWF : Frame.WF exC1 := by
    intro r hr
    simp [exC1, exRateRow] at hr
    rcases hr with h | h <;> subst h <;> rfl
  have h1 : hasRateKeyword "GMV" = false := by decide
  have h2 : hasRateKeyword "USD to EUR historical Rates (EoM)" = true := by decide
  have hf : findRateRow exC1.rows = some exRateRow := by
    simp [findRateRow, exC1, exRateRow, List.find?, h1, h2]
  exact ⟨hWF, hf, ((convert_to_eur_postcondition.1 exC1 exRateRow hWF hf).2).1⟩

/-- Counterexample to C2 as stated: in `exC2` the Jan-25 rate is missing
while the raw GMV value `1000000` is present; the claim demands a missing
output cell, but `convert_to_eur` leaves the unconverted raw value in place:
the output cell is `some 1000000`, not `none`. -/
theorem convert_to_eur_missing_rate_counterexample :
    Frame.cellVal (convert_to_eur exC2) 0 0 = some 1000000 ∧
    Frame.cellVal (convert_to_eur exC2) 0 0 ≠ none := by
  have h1 : hasRateKeyword "GMV" = false := by decide
  have h2 : hasRateKeyword "USD to EUR historical Rates (EoM)" = true := by decide
  have hf : findRateRow exC2.rows =
      some ⟨"USD to EUR historical Rates (EoM)", [none, some (93/100)]⟩ := by
    simp [findRateRow, exC2, List.find?, h1, h2]
  constructor
  · rw [convert_to_eur_rows_of_found hf]
    simp [Frame.cellVal, exC2, convertRow, currency_metrics, convertCell]
  · rw [convert_to_eur_rows_of_found hf]
    simp [Frame.cellVal, exC2, convertRow, currency_metrics, convertCell]

/-- C2 (amended): for every allow-listed metric row of a well-formed table
with a rate row, a missing raw value gives a missing output cell; but when
the rate for a period is missing or zero and the raw value is present, the
cell is left unchanged, keeping the unconverted raw value (conversion is
never applied with a missing or zero multiplier — the cell is not blanked). -/
theorem convert_to_eur_missing_or_zero_rate :
    ∀ (t : Frame) (rate : Row), Frame.WF t → findRateRow t.rows = some rate →
    ∀ (i : Nat) (r : Row), t.rows[i]? = some r → r.label ∈ currency_metrics →
      ∃ r', (convert_to_eur t).rows[i]? = some r' ∧
        ∀ j : Nat,
          (r.vals[j]? = some none → r'.vals[j]? = some none) ∧
          (∀ a : ℚ, r.vals[j]? = some (some a) →
            (rate.vals[j]? = some none ∨ rate.vals[j]? = some (some 0)) →
            r'.vals[j]? = some (some a)) := by
  intro t rate hWF hfind i r hget hmem
  have hrate_mem : rate ∈ t.rows := List.mem_of_find?_eq_some hfind
  have hrate_len : rate.vals.length = t.periods.length := hWF rate hrate_mem
  have hr_len : r.vals.length = t.periods.length := hWF r (mem_of_getElem?_row hget)
  rw [convert_to_eur_rows_of_found hfind]
  refine ⟨convertRow rate r, by simp [List.getElem?_map, hget], ?_⟩
  intro j
  constructor
  · intro hnone
    have hj : j < r.vals.length := by
      by_contra hge
      rw [List.getElem?_eq_none (Nat.le_of_not_lt hge)] at hnone
      exact Option.noConfusion hnone
    have hjr : j < rate.vals.length := by omega
    obtain ⟨rv, hrv⟩ : ∃ rv, rate.vals[j]? = some rv :=
      ⟨rate.vals[j], List.getElem?_eq_getElem hjr⟩
    simp only [convertRow, hmem, if_pos]
    rw [List.getElem?_zipWith, hnone, hrv]
    simp [convertCell]
  · intro a ha hbad
    simp only [convertRow, hmem, if_pos]
    rcases hbad with hb | hb
    · rw [List.getElem?_zipWith, ha, hb]
      simp [convertCell]
    · rw [List.getElem?_zipWith, ha, hb]
      simp [convertCell]

/-- Witness for C2 (amended) at `exC2`: the rate row is found, row 0 (GMV) is
allow-listed, and the theorem applies. -/
theorem convert_to_eur_missing_or_zero_rate_witness :
    Frame.WF exC2 ∧ "GMV" ∈ currency_metrics ∧
    ∃ r', (convert_to_eur exC2).rows[0]? = some r' ∧
      ∀ j : Nat,
        ((⟨"GMV", [some 1000000, some 1100000]⟩ : Row).vals[j]? = some none →
          r'.vals[j]? = some none) ∧
        (∀ a : ℚ,
          (⟨"GMV", [some 1000000, some 1100000]⟩ : Row).vals[j]? = some (some a) →
          ((⟨"USD to EUR historical Rates (EoM)", [none, some (93/100)]⟩ :
            Row).vals[j]? = some none ∨
           (⟨"USD to EUR historical Rates (EoM)", [none, some (93/100)]⟩ :
            Row).vals[j]? = some (some 0)) →
          r'.vals[j]? = some (some a)) := by
  have hWF : Frame.WF exC2 := by
    intro r hr
    simp [exC2] at hr
    rcases hr with h | h <;> subst h <;> rfl
  have h1 : hasRateKeyword "GMV" = false := by decide
  have h2 : hasRateKeyword "USD to EUR historical Rates (EoM)" = true := by decide
  have hf : findRateRow exC2.rows =
      some ⟨"USD to EUR historical Rates (EoM)", [none, some (93/100)]⟩ := by
    simp [findRateRow, exC2, List.find?, h1, h2]
  refine ⟨hWF, by decide, ?_⟩
  exact convert_to_eur_missing_or_zero_rate exC2 _ hWF hf 0
    ⟨"GMV", [some 1000000, some 1100000]⟩ rfl (by decide)

/-- Helper: `monthChain` returns one parse result per input value. -/
theorem monthChain_length (ms : List (Option String)) :
    (monthChain ms).length = ms.length := by
  unfold monthChain
  dsimp only
  split_ifs <;> simp

/-- Helper: projecting the months out of the zip/filterMap of `clean_data`
yields exactly the successful parses, in order. -/
theorem clean_month_aux :
    ∀ (ks : List PRow) (ds : List (Option Date)), ks.length = ds.length →
    (((ks.zip ds).filterMap fun rd => rd.2.map fun d =>
      (⟨d, rd.1.gmv, rd.1.funded_amount, rd.1.avg_days_outstanding,
        rd.1.num_invoices, rd.1.num_boxes⟩ : CRow)).map (·.month)) =
      ds.filterMap id := by
  intro ks
  induction ks with
  | nil =>
      intro ds h
      cases ds with
      | nil => simp
      | cons d ds => simp at h
  | cons k ks ih =>
      intro ds h
      cases ds with
      | nil => simp at h
      | cons d ds =>
          cases d with
          | none => simpa using ih ds (by simpa using h)
          | some d' => simpa using ih ds (by simpa using h)

/-- Helper: length of the kept parses equals the count of successes. -/
theorem length_filterMap_id (ds : List (Option Date)) :
    (ds.filterMap id).length = ds.countP (·.isSome) := by
  induction ds with
  | nil => simp
  | cons d ds ih => cases d <;> simp [List.countP_cons, ih]

/-- Counterexample to C7 as stated: the single row of `exC7` has the month
header `"garbage"`, which fails every parsing strategy; the claim says the
period is retained with its raw header, but `clean_data` returns an empty
table — the row is dropped. -/
theorem clean_data_unparseable_counterexample :
    clean_data exC7 = [] ∧ exC7.length = 1 := by decide

/-- C7 (amended): rows whose month fails all applicable parsing strategies
are dropped by `clean_data`, not retained: the months of the cleaned output
are exactly the successful parses (in order) of the non-empty rows' month
headers, and the number of surviving rows equals the number of headers that
parsed under the format-fallback chain. -/
theorem clean_data_drops_unparseable_rows :
    ∀ rows : List PRow,
      (clean_data rows).map (·.month) =
        (monthChain ((rows.filter fun r => !r.isAllNa).map (·.month))).filterMap id ∧
      (clean_data rows).length =
        (monthChain ((rows.filter fun r => !r.isAllNa).map (·.month))).countP
          (·.isSome) := by
  intro rows
  have hlen : (rows.filter fun r => !r.isAllNa).length =
      (monthChain ((rows.filter fun r => !r.isAllNa).map (·.month))).length := by
    rw [monthChain_length]
    simp
  have hmap := clean_month_aux (rows.filter fun r => !r.isAllNa)
    (monthChain ((rows.filter fun r => !r.isAllNa).map (·.month))) hlen
  constructor
  · simpa [clean_data] using hmap
  · have : ((clean_data rows).map (·.month)).length =
        ((monthChain ((rows.filter fun r => !r.isAllNa).map (·.month))).filterMap
          id).length := by
      rw [show (clean_data rows).map (·.month) = _ by simpa [clean_data] using hmap]
    simpa [length_filterMap_id] using this

/-- Counterexample to C9 as stated: the header `1/1/99` is in `M/D/YY` form,
but `%y` resolves `99` to 1999, via the strptime pivot, not to
`2000 + 99 = 2099`; the full fallback chain of `clean_data` agrees. -/
theorem parse_mdyy_counterexample :
    parse_mdyy "1/1/99" = some ⟨1999, 1, 1⟩ ∧
    monthChain [some "1/1/99"] = [some ⟨1999, 1, 1⟩] ∧ 1999 ≠ 2000 + 99 := by decide

/-- C9 (amended): for every two-digit year `YY`, the `%m/%d/%y` strategy
resolves `YY` with the CPython strptime sliding pivot: `00`–`68` map to
`2000 + YY`, while `69`–`99` map to `1900 + YY` (so the parsed year is in the
2000s only for `YY ≤ 68`). -/
theorem parse_mdyy_year_pivot :
    ∀ yy : Nat, yy < 100 →
      parse_mdyy ("1/1/" ++ twoDigitStr yy) =
        some ⟨if 69 ≤ yy then 1900 + yy else 2000 + yy, 1, 1⟩ := by decide

/-- Witness for C9 (amended) at `YY = 99` and `YY = 25`. -/
theorem parse_mdyy_year_pivot_witness :
    (99 < 100 ∧ parse_mdyy ("1/1/" ++ twoDigitStr 99) =
      some ⟨if 69 ≤ 99 then 1900 + 99 else 2000 + 99, 1, 1⟩) ∧
    (25 < 100 ∧ parse_mdyy ("1/1/" ++ twoDigitStr 25) =
      some ⟨if 69 ≤ 25 then 1900 + 25 else 2000 + 25, 1, 1⟩) :=
  ⟨⟨by decide, parse_mdyy_year_pivot 99 (by decide)⟩,
   ⟨by decide, parse_mdyy_year_pivot 25 (by decide)⟩⟩

/-- Counterexample to C8 as stated: in `exC8` the row has 91 boxes and 0
invoices; the claim demands a missing ratio for a zero divisor, but the
pipeline produces positive infinity. -/
theorem calculate_metrics_div_zero_counterexample :
    ((calculate_metrics exC8)[0]?).map (·.boxes_per_invoice) =
      some FloatVal.posInf ∧
    FloatVal.posInf ≠ FloatVal.nan := by decide

/-- C8 (amended): `boxes_per_invoice` is the elementwise quotient of
`num_boxes` by `num_invoices` rounded (half-even) to 2 decimal places when
the divisor is non-zero; a missing operand gives a missing (NaN) result; a
zero divisor gives a signed infinity for a non-zero dividend (not a missing
value) and NaN only for `0/0`. -/
theorem calculate_metrics_ratio :
    ∀ (rows : List CRow) (i : Nat) (r : CRow), rows[i]? = some r →
      ∃ e : ERow, (calculate_metrics rows)[i]? = some e ∧ e.base = r ∧
        e.boxes_per_invoice =
          (match r.num_boxes, r.num_invoices with
           | some a, some b =>
               if b ≠ 0 then FloatVal.fin (round2 (a / b))
               else if 0 < a then FloatVal.posInf
               else if a < 0 then FloatVal.negInf
               else FloatVal.nan
           | _, _ => FloatVal.nan) := by
  intro rows i r h
  have hmap : (calculate_metrics rows)[i]? = some
      { base := r
        boxes_per_invoice := (pdDiv r.num_boxes r.num_invoices).round2
        days_performance := r.avg_days_outstanding.map (fun x =>
          if x ≤ 20 then "Excellent" else if x ≤ 25 then "Good"
          else "Needs Improvement")
        quarter := (r.month.month + 2) / 3
        year := r.month.year
        month_name := monthNames.getD (r.month.month - 1) "" } := by
    simp [calculate_metrics, List.getElem?_map, h]
  refine ⟨_, hmap, rfl, ?_⟩
  cases ha : r.num_boxes with
  | none => simp [pdDiv, ha, FloatVal.round2]
  | some a =>
      cases hb : r.num_invoices with
      | none => simp [pdDiv, ha, hb, FloatVal.round2]
      | some b =>
          by_cases hz : b ≠ 0
          · simp [pdDiv, ha, hb, hz, FloatVal.round2]
          · by_cases hpos : 0 < a
            · simp [pdDiv, ha, hb, hz, hpos, FloatVal.round2]
            · by_cases hneg : a < 0
              · simp [pdDiv, ha, hb, hz, hpos, hneg, FloatVal.round2]
              · simp [pdDiv, ha, hb, hz, hpos, hneg, FloatVal.round2]

/-- Witness for C8 (amended) at `exC8`: 91 boxes over 0 invoices. -/
theorem calculate_metrics_ratio_witness :
    exC8[0]? = some exC8Row ∧
    ∃ e : ERow, (calculate_metrics exC8)[0]? = some e ∧ e.base = exC8Row ∧
      e.boxes_per_invoice =
        (match exC8Row.num_boxes, exC8Row.num_invoices with
         | some a, some b =>
             if b ≠ 0 then FloatVal.fin (round2 (a / b))
             else if 0 < a then FloatVal.posInf
             else if a < 0 then FloatVal.negInf
             else FloatVal.nan
         | _, _ => FloatVal.nan) :=
  ⟨rfl, calculate_metrics_ratio exC8 0 exC8Row rfl⟩

/-- Counterexample to C5 as stated: on the duplicate-keyed input `exDup`
(`("Jan-25", "gmv")` twice), the claim says `toWide` succeeds with the later
value `200`; but the pivot refuses duplicate keys, so
`create_pipeline_compatible_format` fails (`none`). -/
theorem cpcf_duplicate_counterexample :
    create_pipeline_compatible_format exDup true = none ∧
    hasDupKey exDup = true := by decide

/-- C5 (amended): for every long-form input containing two records with the
same `(MetricKey, Period)` pair, `toWide`
(`create_pipeline_compatible_format`, via `DataFrame.pivot`) raises an error
rather than applying a last-write-wins tie-break — duplicates are rejected,
with either currency setting. -/
theorem cpcf_duplicate_error :
    ∀ (recs : List LongRec) (b : Bool), hasDupKey recs = true →
      create_pipeline_compatible_format recs b = none := by
  intro recs b h
  simp [create_pipeline_compatible_format, pivot, h]

/-- Witness for C5 (amended) at `exDup`. -/
theorem cpcf_duplicate_error_witness :
    hasDupKey exDup = true ∧
    create_pipeline_compatible_format exDup false = none :=
  ⟨by decide, cpcf_duplicate_error exDup false (by decide)⟩

/-- C6: `clean_currency_value` is total: every raw cell maps to exactly one
result, which is either the missing marker or a number (the function neither
raises nor returns anything else); null and blank input map to missing; and
any string whose stripped text parses in neither the percent path nor the
plain path maps to missing. -/
theorem clean_currency_value_total :
    (∀ c : Option String, clean_currency_value c = none ∨
      ∃ q : ℚ, clean_currency_value c = some q) ∧
    clean_currency_value none = none ∧
    clean_currency_value (some "") = none ∧
    (∀ s : String, s ≠ "" →
      pyFloat (parenNegate
        (s.data.filter fun c => !(currencyStripChars.contains c))).dropLast = none →
      pyFloat (parenNegate
        (s.data.filter fun c => !(currencyStripChars.contains c))) = none →
      clean_currency_value (some s) = none) := by
  refine ⟨?_, rfl, rfl, ?_⟩
  · intro c
    cases h : clean_currency_value c with
    | none => exact Or.inl rfl
    | some q => exact Or.inr ⟨q, rfl⟩
  · intro s hs h1 h2
    simp only [clean_currency_value, if_neg hs]
    split_ifs with hpc
    · rw [h1]
      rfl
    · exact h2

/-- Witness for C6 at the unparseable string `"abc"` (and the blank cases are
closed conjuncts of the theorem itself). -/
theorem clean_currency_value_total_witness :
    ("abc" ≠ "" ∧ clean_currency_value (some "abc") = none) ∧
    clean_currency_value none = none :=
  ⟨⟨by decide,
    clean_currency_value_total.2.2.2 "abc" (by decide) (by decide) (by decide)⟩,
   clean_currency_value_total.2.1⟩

/-! ### Write-list lemmas for the heap model (claim C10) -/

/-- A fold of `writeStep` started from a present value stays present. -/
theorem writeFold_isSome (i j : Nat) :
    ∀ (ws : List (Nat × Nat × ℚ)) (a : Cell),
      (ws.foldl (writeStep i j) (some a)).isSome := by
  intro ws
  induction ws with
  | nil => intro a; rfl
  | cons w ws ih =>
      intro a
      by_cases h : w.1 = i ∧ w.2.1 = j
      · simpa [List.foldl_cons, writeStep, h] using ih w.2.2
      · simpa [List.foldl_cons, writeStep, h] using ih a

/-- The initial accumulator of a `writeStep` fold only matters when no write
matches. -/
theorem writeFold_init (i j : Nat) :
    ∀ (ws : List (Nat × Nat × ℚ)) (a : Option Cell),
      ws.foldl (writeStep i j) a =
        match ws.foldl (writeStep i j) none with
        | some v => some v
        | none => a := by
  intro ws
  induction ws with
  | nil => intro a; rfl
  | cons w ws ih =>
      intro a
      by_cases h : w.1 = i ∧ w.2.1 = j
      · have hs := writeFold_isSome i j ws w.2.2
        obtain ⟨v, hv⟩ := Option.isSome_iff_exists.mp hs
        simp [List.foldl_cons, writeStep, h, hv]
      · simpa [List.foldl_cons, writeStep, h] using ih a

/-- `lastWrite` over an append: the later segment wins. -/
theorem lastWrite_append (i j : Nat) (ws₁ ws₂ : List (Nat × Nat × ℚ)) :
    lastWrite i j (ws₁ ++ ws₂) =
      match lastWrite i j ws₂ with
      | some v => some v
      | none => lastWrite i j ws₁ := by
  unfold lastWrite
  rw [List.foldl_append]
  exact writeFold_init i j ws₂ _

/-- A write list that never touches `(i, j)` contributes nothing. -/
theorem lastWrite_eq_none (i j : Nat) :
    ∀ ws : List (Nat × Nat × ℚ),
      (∀ w ∈ ws, ¬(w.1 = i ∧ w.2.1 = j)) → lastWrite i j ws = none := by
  intro ws
  induction ws with
  | nil => intro _; rfl
  | cons w ws ih =>
      intro h
      have hw := h w (List.mem_cons_self w ws)
      have : lastWrite i j (w :: ws) = ws.foldl (writeStep i j) none := by
        simp [lastWrite, List.foldl_cons, writeStep, hw]
      rw [this]
      exact ih fun w' hw' => h w' (List.mem_cons_of_mem w hw')

/-- Effect of one `df.at` write on one cell: only the targeted in-range cell
changes. -/
theorem cellQ_frameWrite (t : Frame) (i0 j0 : Nat) (v : Cell) (i j : Nat) :
    Frame.cellQ (frameWrite t i0 j0 v) i j =
      match Frame.cellQ t i j with
      | none => none
      | some c => some (if i0 = i ∧ j0 = j then v else c) := by
  unfold Frame.cellQ frameWrite
  rw [List.getElem?_modify]
  cases hr : t.rows[i]? with
  | none =>
      by_cases hi : i0 = i <;> simp [hi]
  | some r =>
      by_cases hi : i0 = i
      · subst hi
        simp only [Option.map_some, if_pos rfl, Option.some_bind]
        show (r.vals.set j0 v)[j]? = _
        rw [List.getElem?_set]
        cases hv : r.vals[j]? with
        | none =>
            have hlen : r.vals.length ≤ j := by
              by_contra hlt
              rw [List.getElem?_eq_getElem (Nat.lt_of_not_le hlt)] at hv
              exact Option.noConfusion hv
            by_cases hj : j0 = j
            · subst hj
              rw [if_pos rfl, if_neg (Nat.not_lt.mpr hlen)]
            · rw [if_neg hj]
        | some c =>
            have hlt : j < r.vals.length := by
              by_contra hge
              rw [List.getElem?_eq_none (Nat.le_of_not_lt hge)] at hv
              exact Option.noConfusion hv
            by_cases hj : j0 = j
            · subst hj
              rw [if_pos rfl, if_pos hlt]
              simp
            · rw [if_neg hj]
              show some c = some (if True ∧ j0 = j then v else c)
              rw [if_neg (fun h => hj h.2)]
      · simp only [Option.map_some, if_neg hi, Option.some_bind]
        cases hv : r.vals[j]? with
        | none => rfl
        | some c =>
            show some c = some (if i0 = i ∧ j0 = j then v else c)
            rw [if_neg (fun h => hi h.1)]

/-- One cell of a frame after a whole write list: the last write to that cell
wins, and untouched cells keep their value. -/
theorem cellQ_applyWrites (i j : Nat) :
    ∀ (ws : List (Nat × Nat × ℚ)) (t : Frame),
      Frame.cellQ (applyWrites t ws) i j =
        match Frame.cellQ t i j with
        | none => none
        | some c => some ((lastWrite i j ws).getD c) := by
  intro ws
  induction ws with
  | nil =>
      intro t
      cases hc : Frame.cellQ t i j <;> simp [applyWrites, lastWrite, hc]
  | cons w ws ih =>
      intro t
      have step : applyWrites t (w :: ws) =
          applyWrites (frameWrite t w.1 w.2.1 (some w.2.2)) ws := rfl
      rw [step, ih, cellQ_frameWrite]
      have hlw : lastWrite i j (w :: ws) =
          match lastWrite i j ws with
          | some v => some v
          | none => writeStep i j none w := by
        show (w :: ws).foldl (writeStep i j) none = _
        rw [List.foldl_cons]
        exact writeFold_init i j ws _
      cases hc : Frame.cellQ t i j with
      | none => rfl
      | some c =>
          by_cases hm : w.1 = i ∧ w.2.1 = j
          · cases hl : lastWrite i j ws with
            | none => simp [hlw, hl, writeStep, hm]
            | some v => simp [hlw, hl, writeStep, hm]
          · cases hl : lastWrite i j ws with
            | none => simp [hlw, hl, writeStep, hm]
            | some v => simp [hlw, hl, writeStep, hm]

/-- Writes do not touch the period header list. -/
theorem applyWrites_periods :
    ∀ (ws : List (Nat × Nat × ℚ)) (t : Frame),
      (applyWrites t ws).periods = t.periods := by
  intro ws
  induction ws with
  | nil => intro t; rfl
  | cons w ws ih => intro t; exact ih _

/-- Writes do not change the number of rows. -/
theorem applyWrites_rows_length :
    ∀ (ws : List (Nat × Nat × ℚ)) (t : Frame),
      (applyWrites t ws).rows.length = t.rows.length := by
  intro ws
  induction ws with
  | nil => intro t; rfl
  | cons w ws ih =>
      intro t
      rw [show applyWrites t (w :: ws) =
        applyWrites (frameWrite t w.1 w.2.1 (some w.2.2)) ws from rfl, ih]

      simp [frameWrite, List.length_modify]

/-- Writes do not change row labels. -/
theorem applyWrites_label (i : Nat) :
    ∀ (ws : List (Nat × Nat × ℚ)) (t : Frame),
      ((applyWrites t ws).rows[i]?).map (·.label) =
        (t.rows[i]?).map (·.label) := by
  intro ws
  induction ws with
  | nil => intro t; rfl
  | cons w ws ih =>
      intro t
      rw [show applyWrites t (w :: ws) =
        applyWrites (frameWrite t w.1 w.2.1 (some w.2.2)) ws from rfl, ih]
      show ((t.rows.modify _ w.1)[i]?).map (·.label) = _
      rw [List.getElem?_modify]
      cases hr : t.rows[i]? with
      | none => rfl
      | some r => by_cases hw : w.1 = i <;> simp [hw]

/-- `lastWrite` over a row-indexed `flatMap` of per-row write lists. -/
theorem lastWrite_flatMap_range (F : Nat → List (Nat × Nat × ℚ))
    (hF : ∀ i' w, w ∈ F i' → w.1 = i') (i j : Nat) :
    ∀ m : Nat, lastWrite i j ((List.range m).flatMap F) =
      if i < m then lastWrite i j (F i) else none := by
  intro m
  induction m with
  | zero => simp [lastWrite]
  | succ m ih =>
      rw [List.range_succ, List.flatMap_append, lastWrite_append]
      have hsingle : [m].flatMap F = F m := by simp
      rw [hsingle]
      by_cases him : i = m
      · subst him
        cases hl : lastWrite i j (F i) with
        | some v => simp [hl, Nat.lt_succ_self]
        | none =>
            rw [ih]
            simp [Nat.lt_succ_self, hl, Nat.lt_irrefl]
      · have hFm : lastWrite i j (F m) = none := by
          apply lastWrite_eq_none
          intro w hw hcontra
          exact him ((hF m w hw).symm.trans hcontra.1).symm
        rw [hFm, ih]
        by_cases hlt : i < m
        · rw [if_pos hlt, if_pos (Nat.lt_succ_of_lt hlt)]
        · rw [if_neg hlt, if_neg (fun h => hlt (Nat.lt_of_le_of_ne (Nat.le_of_lt_succ h) him))]

/-- `lastWrite` over a column-indexed `filterMap` of per-cell writes. -/
theorem lastWrite_filterMap_range (g : Nat → Option (Nat × Nat × ℚ)) (i : Nat)
    (hg : ∀ j' w, g j' = some w → w.1 = i ∧ w.2.1 = j') (j : Nat) :
    ∀ m : Nat, lastWrite i j ((List.range m).filterMap g) =
      if j < m then
        (match g j with | some w => some (some w.2.2) | none => none)
      else none := by
  intro m
  induction m with
  | zero => simp [lastWrite]
  | succ m ih =>
      rw [List.range_succ, List.filterMap_append, lastWrite_append]
      by_cases hjm : j = m
      · subst hjm
        cases hgj : g j with
        | some w =>
            have hkey := hg j w hgj
            have : lastWrite j.succ 0 ([] : List (Nat × Nat × ℚ)) = none := rfl
            have hsingle : ([j].filterMap g) = [w] := by
              simp [List.filterMap_cons, hgj]
            rw [hsingle]
            have : lastWrite i j [w] = some (some w.2.2) := by
              simp [lastWrite, writeStep, hkey.1, hkey.2]
            rw [this]
            simp [hgj, Nat.lt_succ_self]
        | none =>
            have hsingle : ([j].filterMap g) = [] := by
              simp [List.filterMap_cons, hgj]
            rw [hsingle]
            show (match lastWrite i j [] with
              | some v => some v
              | none => lastWrite i j ((List.range j).filterMap g)) = _
            rw [show lastWrite i j ([] : List (Nat × Nat × ℚ)) = none from rfl]
            rw [ih]
            simp [hgj, Nat.lt_succ_self, Nat.lt_irrefl]
      · have hFm : lastWrite i j ([m].filterMap g) = none := by
          apply lastWrite_eq_none
          intro w hw hcontra
          rw [List.filterMap_cons] at hw
          cases hgm : g m with
          | none => rw [hgm] at hw; simp at hw
          | some wm =>
              rw [hgm] at hw
              simp at hw
              have hk := hg m wm hgm
              rw [hw] at hcontra
              exact hjm (hcontra.2.symm.trans hk.2)
        rw [hFm, ih]
        by_cases hlt : j < m
        · rw [if_pos hlt, if_pos (Nat.lt_succ_of_lt hlt)]
        · rw [if_neg hlt, if_neg (fun h => hlt (Nat.lt_of_le_of_ne (Nat.le_of_lt_succ h) hjm))]

/-- The value the write loop leaves in cell `(i, j)`: present exactly when
row `i` is allow-listed, both the raw value and the rate are numeric, and the
rate is non-zero. -/
theorem lastWrite_convertWrites (t : Frame) (rate : Row) (i j : Nat) (r : Row)
    (hr : t.rows[i]? = some r) (hlen : r.vals.length ≤ t.periods.length) :
    lastWrite i j (convertWrites t rate) =
      if r.label ∈ currency_metrics then
        (match r.vals[j]?, rate.vals[j]? with
         | some (some a), some (some rv) =>
             if rv ≠ 0 then some (some (a * rv)) else none
         | _, _ => none)
      else none := by
  have hi : i < t.rows.length := by
    by_contra hge
    rw [List.getElem?_eq_none (Nat.le_of_not_lt hge)] at hr
    exact Option.noConfusion hr
  have hcw : ∀ (r' : Row) (i' j' : Nat) (w : Nat × Nat × ℚ),
      cellWrite rate r' i' j' = some w → w.1 = i' ∧ w.2.1 = j' := by
    intro r' i' j' w h
    unfold cellWrite at h
    rcases hva : r'.vals[j']? with _ | (_ | a) <;>
      rcases hvr : rate.vals[j']? with _ | (_ | rv) <;>
        rw [hva, hvr] at h <;> simp at h
    rw [← h.2]
    exact ⟨rfl, rfl⟩
  have hF : ∀ (i' : Nat) (w : Nat × Nat × ℚ), w ∈ rowWrites t rate i' → w.1 = i' := by
    intro i' w hw
    unfold rowWrites at hw
    cases hri : t.rows[i']? with
    | none => rw [hri] at hw; simp at hw
    | some r' =>
        rw [hri] at hw
        dsimp only at hw
        by_cases hmem : r'.label ∈ currency_metrics
        · rw [if_pos hmem] at hw
          obtain ⟨j', _, hj'eq⟩ := List.mem_filterMap.mp hw
          exact (hcw r' i' j' w hj'eq).1
        · rw [if_neg hmem] at hw
          simp at hw
  unfold convertWrites
  rw [lastWrite_flatMap_range _ hF i j t.rows.length, if_pos hi]
  unfold rowWrites
  rw [hr]
  dsimp only
  by_cases hmem : r.label ∈ currency_metrics
  · rw [if_pos hmem, if_pos hmem]
    rw [lastWrite_filterMap_range (cellWrite rate r i) i (hcw r i) j t.periods.length]
    by_cases hj : j < t.periods.length
    · rw [if_pos hj]
      unfold cellWrite
      rcases hva : r.vals[j]? with _ | (_ | a) <;>
        rcases hvr : rate.vals[j]? with _ | (_ | rv) <;> simp [hva, hvr]
      by_cases hz : rv = 0 <;> simp [hz]
    · rw [if_neg hj]
      have hvnone : r.vals[j]? = none :=
        List.getElem?_eq_none (le_trans hlen (Nat.le_of_not_lt hj))
      rcases hvr : rate.vals[j]? with _ | (_ | rv) <;> simp [hvnone, hvr]
  · rw [if_neg hmem, if_neg hmem]
    rfl

/-- Replaying the write list of the conversion loop on (a copy of) the
original frame produces exactly the functional conversion result. -/
theorem applyWrites_eq_map (t : Frame) (rate : Row) (hWF : Frame.WF t)
    (hrlen : rate.vals.length = t.periods.length) :
    applyWrites t (convertWrites t rate) =
      ⟨t.periods, t.rows.map (convertRow rate)⟩ := by
  have hper : (applyWrites t (convertWrites t rate)).periods = t.periods :=
    applyWrites_periods _ _
  have hrows : (applyWrites t (convertWrites t rate)).rows =
      t.rows.map (convertRow rate) := by
    apply List.ext_getElem?
    intro i
    rw [List.getElem?_map]
    cases hr : t.rows[i]? with
    | none =>
        have hlen2 : t.rows.length ≤ i := by
          by_contra hlt
          rw [List.getElem?_eq_getElem (Nat.lt_of_not_le hlt)] at hr
          exact Option.noConfusion hr
        rw [List.getElem?_eq_none
          (le_trans (le_of_eq (applyWrites_rows_length _ _)) hlen2)]
        rfl
    | some r =>
        have hi : i < t.rows.length := by
          by_contra hge
          rw [List.getElem?_eq_none (Nat.le_of_not_lt hge)] at hr
          exact Option.noConfusion hr
        have hi' : i < (applyWrites t (convertWrites t rate)).rows.length := by
          rw [applyWrites_rows_length]
          exact hi
        obtain ⟨r', hR⟩ : ∃ r',
            (applyWrites t (convertWrites t rate)).rows[i]? = some r' :=
          ⟨_, List.getElem?_eq_getElem hi'⟩
        rw [hR]
        have hrlen2 : r.vals.length = t.periods.length :=
          hWF r (List.getElem?_mem hr)
        have hlab : r'.label = r.label := by
          have := applyWrites_label i (convertWrites t rate) t
          rw [hR, hr] at this
          simpa using this
        have hlabc : (convertRow rate r).label = r.label := by
          unfold convertRow
          split_ifs <;> rfl
        have hLW := fun j =>
          lastWrite_convertWrites t rate i j r hr (le_of_eq hrlen2)
        have hvals : r'.vals = (convertRow rate r).vals := by
          apply List.ext_getElem?
          intro j
          have hcellL : r'.vals[j]? =
              match r.vals[j]? with
              | none => none
              | some c =>
                  some ((lastWrite i j (convertWrites t rate)).getD c) := by
            have h1 : Frame.cellQ (applyWrites t (convertWrites t rate)) i j =
                r'.vals[j]? := by
              unfold Frame.cellQ
              rw [hR]
              rfl
            have h2 : Frame.cellQ t i j = r.vals[j]? := by
              unfold Frame.cellQ
              rw [hr]
              rfl
            rw [← h1, cellQ_applyWrites, h2]
          rw [hcellL]
          by_cases hmem : r.label ∈ currency_metrics
          · have hconv : (convertRow rate r).vals =
                List.zipWith convertCell r.vals rate.vals := by
              unfold convertRow
              rw [if_pos hmem]
            rw [hconv, List.getElem?_zipWith]
            cases hv : r.vals[j]? with
            | none => rfl
            | some c =>
                have hjlt : j < r.vals.length := by
                  by_contra hge
                  rw [List.getElem?_eq_none (Nat.le_of_not_lt hge)] at hv
                  exact Option.noConfusion hv
                have hjr : j < rate.vals.length := by
                  rw [hrlen]
                  rw [hrlen2] at hjlt
                  exact hjlt
                obtain ⟨rc, hrc⟩ : ∃ rc, rate.vals[j]? = some rc :=
                  ⟨_, List.getElem?_eq_getElem hjr⟩
                rw [hrc, hLW j, if_pos hmem, hv, hrc]
                cases c with
                | none => rfl
                | some a =>
                    cases rc with
                    | none => rfl
                    | some rv =>
                        dsimp only
                        by_cases hz : rv = 0 <;> simp [convertCell, hz]
          · have hconv : convertRow rate r = r := by
              unfold convertRow
              rw [if_neg hmem]
            rw [hconv, hLW j, if_neg hmem]
            cases hv : r.vals[j]? with
            | none => rfl
            | some c => rfl
        have : r' = convertRow rate r := by
          cases r' with
          | mk l v =>
              simp only at hlab hvals
              rw [hlab, hvals, ← hlabc]
        rw [this]
        rfl
  rw [← hper, ← hrows]

/-- Setting the freshly appended element of a heap. -/
theorem set_append_len (y : Frame) :
    ∀ (h : List Frame) (x : Frame), (h ++ [x]).set h.length y = h ++ [y] := by
  intro h
  induction h with
  | nil => intro x; rfl
  | cons a h ih =>
      intro x
      show a :: ((h ++ [x]).set h.length y) = a :: (h ++ [y])
      rw [ih x]

/-- Reading the freshly appended element of a heap. -/
theorem getD_append_len (d : Frame) (h : List Frame) (x : Frame) :
    (h ++ [x]).getD h.length d = x := by
  rw [List.getD_eq_getElem?_getD, List.getElem?_append_right (le_refl _)]
  simp

/-- The heap fold of the conversion loop only rewrites the fresh address and
does so exactly as the pure write replay. -/
theorem heapFold (d : Frame) (h : List Frame) :
    ∀ (ws : List (Nat × Nat × ℚ)) (x : Frame),
      ws.foldl (fun hh w =>
        hh.set h.length
          (frameWrite (hh.getD h.length d) w.1 w.2.1 (some w.2.2))) (h ++ [x]) =
        h ++ [applyWrites x ws] := by
  intro ws
  induction ws with
  | nil => intro x; rfl
  | cons w ws ih =>
      intro x
      rw [List.foldl_cons, getD_append_len, set_append_len, ih]
      rfl

/-- C10: `convert_to_eur` never mutates its argument.  In the heap model the
call allocates the copy at a fresh address and performs every write there:
afterwards every pre-existing address (in particular the caller's table) holds
exactly its old frame, the returned reference is the fresh address, and the
frame stored there is the functional conversion result — so building the EUR
dataset leaves the USD dataset intact. -/
theorem convert_to_eur_no_mutation :
    ∀ (h : List Frame) (a : Nat), a < h.length → Frame.WF (h.getD a ⟨[], []⟩) →
      (convert_to_eur_run h a).2 = h.length ∧
      (∀ i, i < h.length → (convert_to_eur_run h a).1[i]? = h[i]?) ∧
      (convert_to_eur_run h a).1[h.length]? =
        some (convert_to_eur (h.getD a ⟨[], []⟩)) := by
  intro h a ha hWF
  cases hf : findRateRow (h.getD a ⟨[], []⟩).rows with
  | none =>
      have hrun : convert_to_eur_run h a =
          (h ++ [h.getD a ⟨[], []⟩], h.length) := by
        unfold convert_to_eur_run
        dsimp only
        rw [hf]
      rw [hrun]
      refine ⟨rfl, ?_, ?_⟩
      · intro i hi
        show (h ++ [h.getD a ⟨[], []⟩])[i]? = h[i]?
        rw [List.getElem?_append, if_pos hi]
      · have hid : convert_to_eur (h.getD a ⟨[], []⟩) = h.getD a ⟨[], []⟩ := by
          unfold convert_to_eur
          rw [hf]
        show (h ++ [h.getD a ⟨[], []⟩])[h.length]? = _
        rw [List.getElem?_append_right (le_refl _), hid]
        simp
  | some rate =>
      have hmem : rate ∈ (h.getD a ⟨[], []⟩).rows := List.mem_of_find?_eq_some hf
      have hrlen : rate.vals.length = (h.getD a ⟨[], []⟩).periods.length :=
        hWF rate hmem
      have hrun : convert_to_eur_run h a =
          ((convertWrites (h.getD a ⟨[], []⟩) rate).foldl
            (fun hh w => hh.set h.length
              (frameWrite (hh.getD h.length ⟨[], []⟩) w.1 w.2.1 (some w.2.2)))
            (h ++ [h.getD a ⟨[], []⟩]), h.length) := by
        unfold convert_to_eur_run
        dsimp only
        rw [hf]
      rw [hrun]
      rw [show ((convertWrites (h.getD a ⟨[], []⟩) rate).foldl
            (fun hh w => hh.set h.length
              (frameWrite (hh.getD h.length ⟨[], []⟩) w.1 w.2.1 (some w.2.2)))
            (h ++ [h.getD a ⟨[], []⟩])) = _ from
          heapFold ⟨[], []⟩ h (convertWrites (h.getD a ⟨[], []⟩) rate)
            (h.getD a ⟨[], []⟩)]
      rw [applyWrites_eq_map _ rate hWF hrlen]
      refine ⟨rfl, ?_, ?_⟩
      · intro i hi
        show (h ++ [_])[i]? = h[i]?
        rw [List.getElem?_append, if_pos hi]
      · show (h ++ [_])[h.length]? = _
        rw [List.getElem?_append_right (le_refl _)]
        rw [convert_to_eur_rows_of_found hf]
        simp

/-- Witness for C10 on a one-frame heap holding the worked example. -/
theorem convert_to_eur_no_mutation_witness :
    0 < [exC1].length ∧ Frame.WF ([exC1].getD 0 ⟨[], []⟩) ∧
    (convert_to_eur_run [exC1] 0).2 = [exC1].length := by
  have hWF : Frame.WF ([exC1].getD 0 ⟨[], []⟩) := by
    intro r hr
    simp [exC1, exRateRow] at hr
    rcases hr with h | h <;> subst h <;> rfl
  exact ⟨by decide, hWF, (convert_to_eur_no_mutation [exC1] 0 (by decide) hWF).1⟩

/-! ### Round-trip lemmas (claim C3) -/

/-- `find?` of a predicate whose filter is a singleton. -/
theorem find?_eq_of_filter_single {α : Type} (p : α → Bool) :
    ∀ (l : List α) (x : α), l.filter p = [x] → l.find? p = some x := by
  intro l
  induction l with
  | nil => intro x h; simp at h
  | cons a l ih =>
      intro x h
      by_cases hp : p a
      · rw [List.filter_cons_of_pos hp] at h
        injection h with h1 h2
        rw [List.find?_cons_of_pos _ hp, h1]
      · rw [List.filter_cons_of_neg (by simpa using hp)] at h
        rw [List.find?_cons_of_neg _ (by simpa using hp)]
        exact ih x h

/-- In a list with pairwise-distinct keys, filtering on the key of a member
yields exactly that member. -/
theorem filter_key_single {α β : Type} [DecidableEq β] (key : α → β) :
    ∀ (l : List α) (x : α), (l.map key).Nodup → x ∈ l →
      l.filter (fun y => key y = key x) = [x] := by
  intro l
  induction l with
  | nil => intro x _ hx; simp at hx
  | cons a l ih =>
      intro x hn hx
      rw [List.map_cons, List.nodup_cons] at hn
      rcases List.mem_cons.mp hx with rfl | hxl
      · rw [List.filter_cons_of_pos (by simp)]
        have hnil : l.filter (fun y => key y = key x) = [] := by
          rw [List.filter_eq_nil_iff]
          intro b hb hkb
          have hkb' : key b = key x := by simpa using hkb
          exact hn.1 (hkb' ▸ List.mem_map_of_mem key hb)
        rw [hnil]
      · have hne : key a ≠ key x := by
          intro he
          exact hn.1 (he ▸ List.mem_map_of_mem key hxl)
        rw [List.filter_cons_of_neg (by simpa using hne)]
        exact ih x hn.2 hxl

/-- In a list with pairwise-distinct keys, at most one element carries any
given key. -/
theorem countP_key_le_one {α β : Type} [DecidableEq β] (key : α → β) :
    ∀ l : List α, (l.map key).Nodup → ∀ b : β,
      l.countP (fun s => key s = b) ≤ 1 := by
  intro l
  induction l with
  | nil => intro _ b; simp
  | cons a l ih =>
      intro hn b
      rw [List.map_cons, List.nodup_cons] at hn
      by_cases hb : key a = b
      · rw [List.countP_cons_of_pos _ _ (by simpa using hb)]
        have hz : l.countP (fun s => key s = b) = 0 := by
          rw [List.countP_eq_zero]
          intro s hs hks
          have hks' : key s = b := by simpa using hks
          exact hn.1 ((hks'.trans hb.symm) ▸ List.mem_map_of_mem key hs)
        omega
      · rw [List.countP_cons_of_neg _ _ (by simpa using hb)]
        exact ih hn.2 b

/-- Pairwise-distinct `(month, metric)` keys rule out the duplicate-key
error of `pivot`. -/
theorem hasDupKey_eq_false {recs : List LongRec}
    (hn : (recs.map LongRec.key).Nodup) : hasDupKey recs = false := by
  unfold hasDupKey
  rw [List.any_eq_false]
  intro r hr
  have hle : recs.countP (fun s => s.month = r.month && s.metric = r.metric) ≤ 1 := by
    have h1 := countP_key_le_one LongRec.key recs hn (LongRec.key r)
    have h2 : recs.countP (fun s => s.month = r.month && s.metric = r.metric) =
        recs.countP (fun s => LongRec.key s = LongRec.key r) := by
      apply List.countP_congr
      intro s _
      simp [LongRec.key, Prod.ext_iff]
    omega
  simp only [ge_iff_le, decide_eq_true_eq]
  omega

/-- The final sort is a permutation of the built records. -/
theorem sortLong_perm (recs : List LongRec) : (sortLong recs).Perm recs := by
  unfold sortLong
  split_ifs <;> exact List.perm_insertionSort _ _

/-- Inversion of `cellRec`: a produced record carries the column's period as
its month and the standardized stripped label as its metric, and the cell was
not NaN. -/
theorem cellRec_inv {w : WideIn} {row : String × List (Option String)}
    {j : Nat} {r : LongRec} (h : cellRec w row j = some r) :
    r.month = w.periods.getD j "" ∧
    r.metric = standardize_metric_name (pyStrip row.1) ∧
    row.2.getD j none ≠ none := by
  unfold cellRec at h
  cases hc : row.2.getD j none with
  | none => rw [hc] at h; exact absurd h (by simp)
  | some v =>
      rw [hc] at h
      dsimp only at h
      by_cases hv : pyStrip v = ""
      · rw [if_pos hv] at h; exact absurd h (by simp)
      · rw [if_neg hv] at h
        cases hq : clean_currency_value (some v) with
        | none => rw [hq] at h; exact absurd h (by simp)
        | some q =>
            rw [hq] at h
            injection h with h
            rw [← h]
            exact ⟨rfl, rfl, fun hx => Option.noConfusion hx⟩

/-- Every key contributed by one row carries that row's standardized metric. -/
theorem rowRecs_key_metric {w : WideIn} {row : String × List (Option String)}
    {k : String × String} (h : k ∈ (rowRecs w row).map LongRec.key) :
    k.2 = standardize_metric_name (pyStrip row.1) := by
  rw [List.mem_map] at h
  obtain ⟨rec, hrec, hk⟩ := h
  rw [rowRecs] at hrec
  by_cases hb : pyStrip row.1 = ""
  · rw [if_pos hb] at hrec; simp at hrec
  · rw [if_neg hb] at hrec
    rw [List.mem_filterMap] at hrec
    obtain ⟨j, _, hcr⟩ := hrec
    have := (cellRec_inv hcr).2.1
    rw [← hk]
    exact this

/-- Every built record's metric is the standardized stripped label of some
kept row. -/
theorem buildRecs_metric {w : WideIn} {r : LongRec} (hr : r ∈ buildRecs w) :
    ∃ row ∈ keptRows w, pyStrip row.1 ≠ "" ∧
      r.metric = standardize_metric_name (pyStrip row.1) := by
  rw [buildRecs, List.mem_flatMap] at hr
  obtain ⟨row, hrow, hr2⟩ := hr
  rw [rowRecs] at hr2
  by_cases hb : pyStrip row.1 = ""
  · rw [if_pos hb] at hr2; simp at hr2
  · rw [if_neg hb] at hr2
    rw [List.mem_filterMap] at hr2
    obtain ⟨j, _, hcr⟩ := hr2
    exact ⟨row, hrow, hb, (cellRec_inv hcr).2.1⟩

/-- Construction of the record corresponding to a present, cleanable cell. -/
theorem mem_buildRecs {w : WideIn} {i j : Nat} {label : String}
    {cells : List (Option String)} {raw : String} {q : ℚ}
    (wf : ∀ r ∈ w.rows, r.2.length = w.periods.length)
    (hrow : w.rows[i]? = some (label, cells))
    (hcell : cells[j]? = some (some raw))
    (hblab : pyStrip label ≠ "")
    (hbraw : pyStrip raw ≠ "")
    (hclean : clean_currency_value (some raw) = some q) :
    (⟨w.periods.getD j "", standardize_metric_name (pyStrip label), q, label⟩ :
      LongRec) ∈ buildRecs w := by
  have hmemrow : (label, cells) ∈ w.rows := List.getElem?_mem hrow
  have hjlt : j < cells.length := by
    by_contra hge
    rw [List.getElem?_eq_none (Nat.le_of_not_lt hge)] at hcell
    exact Option.noConfusion hcell
  have hcellD : cells.getD j none = some raw := by
    rw [List.getD_eq_getElem?_getD, hcell]
    rfl
  have hkeptmem : (label, cells) ∈ keptRows w := by
    rw [keptRows, List.mem_filter]
    refine ⟨hmemrow, ?_⟩
    have hsome : (some raw) ∈ cells := List.getElem?_mem hcell
    simp only [Bool.not_eq_eq_eq_not, Bool.not_true, List.all_eq_false]
    exact ⟨some raw, hsome, by simp⟩
  have hcols : j ∈ keptCols w := by
    rw [keptCols, List.mem_filter, List.mem_range]
    constructor
    · rw [← wf _ hmemrow]
      exact hjlt
    · unfold colHasData
      rw [List.any_eq_true]
      exact ⟨(label, cells), hmemrow, by rw [hcellD]; rfl⟩
  have hcr : cellRec w (label, cells) j =
      some ⟨w.periods.getD j "", standardize_metric_name (pyStrip label), q,
        label⟩ := by
    unfold cellRec
    dsimp only
    rw [hcellD]
    dsimp only
    rw [if_neg hbraw, hclean]
    rfl
  rw [buildRecs, List.mem_flatMap]
  refine ⟨(label, cells), hkeptmem, ?_⟩
  rw [rowRecs, if_neg hblab, List.mem_filterMap]
  exact ⟨j, hcols, hcr⟩

/-- Under distinct periods and distinct standardized labels, the built
records have pairwise-distinct `(month, metric)` keys. -/
theorem buildRecs_key_nodup {w : WideIn}
    (wf : ∀ r ∈ w.rows, r.2.length = w.periods.length)
    (hper : w.periods.Nodup)
    (hlab : (w.rows.map fun r => standardize_metric_name (pyStrip r.1)).Nodup) :
    ((buildRecs w).map LongRec.key).Nodup := by
  rw [buildRecs, List.map_flatMap, List.nodup_flatMap]
  constructor
  · intro row hrow
    have hrowmem : row ∈ w.rows := (List.mem_filter.mp hrow).1
    rw [rowRecs]
    by_cases hb : pyStrip row.1 = ""
    · rw [if_pos hb]
      simp
    · rw [if_neg hb, List.map_filterMap]
      apply List.Nodup.filterMap
      · intro j j' k hkj hkj'
        rw [Option.mem_def] at hkj hkj'
        obtain ⟨r1, hr1, hk1⟩ := Option.map_eq_some'.mp hkj
        obtain ⟨r2, hr2, hk2⟩ := Option.map_eq_some'.mp hkj'
        have c1 := cellRec_inv hr1
        have c2 := cellRec_inv hr2
        have hjlt : j < w.periods.length := by
          have h1 : j < row.2.length := by
            by_contra hge
            have hne1 := c1.2.2
            rw [List.getD_eq_getElem?_getD,
              List.getElem?_eq_none (Nat.le_of_not_lt hge)] at hne1
            exact hne1 rfl
          rwa [wf row hrowmem] at h1
        have hjlt' : j' < w.periods.length := by
          have h1 : j' < row.2.length := by
            by_contra hge
            have hne2 := c2.2.2
            rw [List.getD_eq_getElem?_getD,
              List.getElem?_eq_none (Nat.le_of_not_lt hge)] at hne2
            exact hne2 rfl
          rwa [wf row hrowmem] at h1
        have hmon : r1.month = r2.month := by
          have : LongRec.key r1 = LongRec.key r2 := hk1.trans hk2.symm
          exact congrArg Prod.fst this
        have hg : w.periods.getD j "" = w.periods.getD j' "" := by
          rw [← c1.1, ← c2.1]
          exact hmon
        rw [List.getD_eq_getElem?_getD, List.getD_eq_getElem?_getD,
          List.getElem?_eq_getElem hjlt, List.getElem?_eq_getElem hjlt'] at hg
        simp only [Option.getD_some] at hg
        exact (List.Nodup.getElem_inj_iff hper).mp hg
      · exact List.Nodup.filter _ (List.nodup_range _)
  · have hsub : ((keptRows w).map fun r =>
        standardize_metric_name (pyStrip r.1)).Nodup :=
      List.Nodup.sublist
        (List.Sublist.map _ (List.filter_sublist w.rows)) hlab
    have hpw : List.Pairwise
        (fun r1 r2 => standardize_metric_name (pyStrip r1.1) ≠
          standardize_metric_name (pyStrip r2.1)) (keptRows w) :=
      List.pairwise_map.mp hsub
    refine hpw.imp ?_
    intro r1 r2 hne k hk1 hk2
    exact hne ((rowRecs_key_metric hk1).symm.trans (rowRecs_key_metric hk2))

/-- Distinct standardized labels rule out the ambiguous-label failure. -/
theorem dupLabels_eq_false {w : WideIn}
    (hlab : (w.rows.map fun r => standardize_metric_name (pyStrip r.1)).Nodup) :
    dupLabels w = false := by
  have h1 : ((w.rows.map Prod.fst).map
      (fun s => standardize_metric_name (pyStrip s))).Nodup := by
    rw [List.map_map]
    exact hlab
  have h2 : (w.rows.map Prod.fst).Nodup := h1.of_map
  have h3 : ((keptRows w).map Prod.fst).Nodup :=
    List.Nodup.sublist (List.Sublist.map _ (List.filter_sublist w.rows)) h2
  unfold dupLabels
  rw [List.any_eq_false]
  intro r hr
  have hle := countP_key_le_one Prod.fst (keptRows w) h3 r.1
  simp only [ge_iff_le, Bool.and_eq_true, decide_eq_true_eq, not_and]
  intro _
  omega

/-- When the keys are unique and no rate column is present,
`create_pipeline_compatible_format` succeeds and its cells are exactly the
input records. -/
theorem cpcf_cells {recs : List LongRec}
    (hn : (recs.map LongRec.key).Nodup)
    (hnorate : ∀ r ∈ recs, r.metric ≠ "usd_eur_rate_eom") :
    ∃ t, create_pipeline_compatible_format recs true = some t ∧
      t.cells = recs.map fun r => (r.month, r.metric, r.value) := by
  have hdup : hasDupKey recs = false := hasDupKey_eq_false hn
  have hpivot : pivot recs = some
      { months := (recs.map (·.month)).dedup
        metrics := (recs.map (·.metric)).dedup
        cells := recs.map fun r => (r.month, r.metric, r.value) } := by
    unfold pivot
    rw [hdup]
    rfl
  have hnr : "usd_eur_rate_eom" ∉
      ((recs.map (·.metric)).dedup ++
        required_columns.filter fun c =>
          c ≠ "month" && !((recs.map (·.metric)).dedup.contains c)) := by
    rw [List.mem_append]
    rintro (h | h)
    · rw [List.mem_dedup, List.mem_map] at h
      obtain ⟨r, hr, hm⟩ := h
      exact hnorate r hr hm
    · exact absurd (List.mem_filter.mp h).1 (by decide)
  unfold create_pipeline_compatible_format
  rw [hpivot]
  refine ⟨_, rfl, ?_⟩
  dsimp only [Option.map_some]
  rw [show convert_usd_to_eur
      { months := (recs.map (·.month)).dedup
        metrics := (recs.map (·.metric)).dedup ++
          required_columns.filter fun c =>
            c ≠ "month" && !((recs.map (·.metric)).dedup.contains c)
        cells := recs.map fun r => (r.month, r.metric, r.value) } =
      { months := (recs.map (·.month)).dedup
        metrics := (recs.map (·.metric)).dedup ++
          required_columns.filter fun c =>
            c ≠ "month" && !((recs.map (·.metric)).dedup.contains c)
        cells := recs.map fun r => (r.month, r.metric, r.value) } from by
    unfold convert_usd_to_eur
    rw [if_neg hnr]]
  rfl

/-- Cell lookup in a pivoted frame with unique keys finds a member record's
value. -/
theorem cellAt_of_mem {recs : List LongRec} {t : PFrame} {r : LongRec}
    (hn : (recs.map LongRec.key).Nodup)
    (hcells : t.cells = recs.map fun r => (r.month, r.metric, r.value))
    (hr : r ∈ recs) :
    t.cellAt r.metric r.month = some r.value := by
  unfold PFrame.cellAt
  rw [hcells]
  have hckey : (((recs.map fun r => (r.month, r.metric, r.value)).map
      (fun e : String × String × ℚ => (e.1, e.2.1)))).Nodup := by
    rw [List.map_map]
    exact hn
  have hmem : (r.month, r.metric, r.value) ∈
      recs.map (fun r => (r.month, r.metric, r.value)) :=
    List.mem_map_of_mem _ hr
  have hfilter := filter_key_single (fun e : String × String × ℚ => (e.1, e.2.1))
    (recs.map fun r => (r.month, r.metric, r.value))
    (r.month, r.metric, r.value) hckey hmem
  have hcong : (recs.map fun r => (r.month, r.metric, r.value)).filter
      (fun e => e.1 = r.month && e.2.1 = r.metric) =
      [(r.month, r.metric, r.value)] := by
    rw [← hfilter]
    apply List.filter_congr
    intro e _
    by_cases h1 : e.1 = r.month <;> by_cases h2 : e.2.1 = r.metric <;>
      simp [h1, h2, Prod.ext_iff]
  rw [find?_eq_of_filter_single _ _ _ hcong]
  rfl

/-- Counterexample to C3 as stated: for the one-row table `exW3` with the
`GMV` row, the round trip succeeds but does not reproduce the table: the
result is transposed (months are rows), the label is standardized to `gmv`
(`GMV` is not a column of the result and the `GMV`/`1/1/2025` lookup is
empty), while the input holds `1000000` in that cell. -/
theorem roundtrip_counterexample :
    (roundtrip exW3).map (fun t => t.cellAt "GMV" "1/1/2025") = some none ∧
    (roundtrip exW3).map (fun t => decide ("GMV" ∈ t.metrics)) = some false ∧
    (roundtrip exW3).map (fun t => t.cellAt "gmv" "1/1/2025") =
      some (some 1000000) ∧
    exW3.numAt "GMV" "1/1/2025" = some 1000000 := by decide

/-- C3 (amended): the round trip `create_pipeline_compatible_format ∘
convert_wide_to_long` does not reproduce the wide table exactly — it
transposes the orientation, standardizes the metric labels, and pads the
required pipeline columns — but it preserves every value: for every wide
table with aligned rows, pairwise-distinct period headers,
pairwise-distinct standardized labels, and no row standardizing to the
`usd_eur_rate_eom` rate column (whose presence would trigger currency
conversion), the round trip succeeds and every non-missing, cleanable cell
reappears at (standardized label, period) with the same value. -/
theorem roundtrip_preserves_values :
    ∀ w : WideIn,
      (∀ r ∈ w.rows, r.2.length = w.periods.length) →
      w.periods.Nodup →
      (w.rows.map fun r => standardize_metric_name (pyStrip r.1)).Nodup →
      (∀ r ∈ w.rows, standardize_metric_name (pyStrip r.1) ≠ "usd_eur_rate_eom") →
      ∀ (i j : Nat) (label : String) (cells : List (Option String))
        (raw : String) (q : ℚ),
        w.rows[i]? = some (label, cells) →
        cells[j]? = some (some raw) →
        pyStrip label ≠ "" → pyStrip raw ≠ "" →
        clean_currency_value (some raw) = some q →
        ∃ t, roundtrip w = some t ∧
          t.cellAt (standardize_metric_name (pyStrip label))
            (w.periods.getD j "") = some q := by
  intro w wf hper hlab hnorate i j label cells raw q hrow hcell hblab hbraw hclean
  have hmem : (⟨w.periods.getD j "", standardize_metric_name (pyStrip label),
      q, label⟩ : LongRec) ∈ buildRecs w :=
    mem_buildRecs wf hrow hcell hblab hbraw hclean
  have hkeys : ((buildRecs w).map LongRec.key).Nodup :=
    buildRecs_key_nodup wf hper hlab
  have hperm : (sortLong (buildRecs w)).Perm (buildRecs w) := sortLong_perm _
  have hkeys' : ((sortLong (buildRecs w)).map LongRec.key).Nodup :=
    ((hperm.map _).nodup_iff).mpr hkeys
  have hmem' : (⟨w.periods.getD j "", standardize_metric_name (pyStrip label),
      q, label⟩ : LongRec) ∈ sortLong (buildRecs w) := (hperm.mem_iff).mpr hmem
  have hdupl : dupLabels w = false := dupLabels_eq_false hlab
  have hempty : (buildRecs w).isEmpty = false := by
    cases hb : buildRecs w with
    | nil => rw [hb] at hmem; simp at hmem
    | cons x xs => rfl
  have hcwl : convert_wide_to_long w = some (sortLong (buildRecs w)) := by
    unfold convert_wide_to_long
    rw [hdupl]
    simp [hempty]
  have hnorate' : ∀ r ∈ sortLong (buildRecs w),
      r.metric ≠ "usd_eur_rate_eom" := by
    intro r hr
    obtain ⟨row, hrow2, _, hmet⟩ := buildRecs_metric ((hperm.mem_iff).mp hr)
    rw [hmet]
    exact hnorate row (List.mem_filter.mp hrow2).1
  obtain ⟨t, hT, hcells⟩ := cpcf_cells hkeys' hnorate'
  refine ⟨t, ?_, ?_⟩
  · unfold roundtrip
    rw [hcwl]
    exact hT
  · exact cellAt_of_mem hkeys' hcells hmem'

/-- Witness for C3 (amended) at `exW3`: the `GMV`/`1/1/2025` cell holding
`1000000` survives the round trip at (`gmv`, `1/1/2025`). -/
theorem roundtrip_preserves_values_witness :
    (∀ r ∈ exW3.rows, r.2.length = exW3.periods.length) ∧
    exW3.periods.Nodup ∧
    (exW3.rows.map fun r => standardize_metric_name (pyStrip r.1)).Nodup ∧
    clean_currency_value (some "1000000") = some 1000000 ∧
    ∃ t, roundtrip exW3 = some t ∧
      t.cellAt (standardize_metric_name (pyStrip "GMV"))
        (exW3.periods.getD 0 "") = some 1000000 := by
  refine ⟨by decide, by decide, by decide, by decide, ?_⟩
  exact roundtrip_preserves_values exW3 (by decide) (by decide) (by decide)
    (by decide) 0 0 "GMV" [some "1000000", some "1100000"] "1000000" 1000000
    rfl rfl (by decide) (by decide) (by decide)

end Almacena
